import Mathlib

/-!
Verification of the ballistic / profile-geometry engine of the BulletDesigner
FreeCAD workbench (sources: `BulletDesigner/Utils/Calculations.py`,
`BulletDesigner/Utils/GeometryHelpers.py`,
`BulletDesigner/Commands/TrajectoryCalculator.py`).

The Python code computes over IEEE doubles.  We embed it shallowly over `ℚ`:
every arithmetic operation of the source is translated literally, and the
transcendental library calls (`math.sqrt`, `math.tan`, `math.sin`,
`math.cos`, `math.pow` / `**` with fractional exponent, and the constant
`math.pi`) are abstracted into a record `RealOps` of rational stand-ins.
Theorems that depend on analytic facts about those functions take them as
hypotheses (`OpsFacts`), each of which is a true statement about the real
functions on the domains actually used.  This keeps every definition
computable, so concrete witnesses can be evaluated by `norm_num`.

Python `float` division by zero raises `ZeroDivisionError`; in `ℚ` we have
`x / 0 = 0`.  Theorems about code paths that divide therefore carry the
positivity hypotheses that make the Python computation defined.  `math.sqrt`
of a negative number raises `ValueError`; where a claim turns on that
behaviour (the twist-rate and Miller-stability functions) the call is
modelled with an `Option`.
-/

/-! # Part 1: definitions -/

/-- Comparison of profile points by axial position (the `Z` of a `(Z, R)`
pair); the profile-generator claims are about chains under this relation. -/
def zle (p q : ℚ × ℚ) : Prop := p.1 ≤ q.1

instance : DecidableRel zle := fun p q => by unfold zle; infer_instance

instance : IsTrans (ℚ × ℚ) zle := ⟨fun _ _ _ h1 h2 => le_trans h1 h2⟩

/-- Python's `round` on a float: round half to even (banker's rounding). -/
def pyRound (x : ℚ) : ℤ :=
  let f := ⌊x⌋
  let d := x - f
  if d < 1/2 then f
  else if 1/2 < d then f + 1
  else if f % 2 = 0 then f else f + 1

/-- Python's `round(x, 2)`: banker's rounding at two decimal places. -/
def pyRound2 (x : ℚ) : ℚ := (pyRound (x * 100) : ℚ) / 100

/-- Rational stand-ins for the `math` library functions used by the source.
The claims never depend on their exact values, only on analytic facts
(`OpsFacts`) that hold for the genuine real functions. -/
structure RealOps where
  pi : ℚ
  sqrt : ℚ → ℚ
  sin : ℚ → ℚ
  cos : ℚ → ℚ
  tan : ℚ → ℚ
  rpow : ℚ → ℚ → ℚ

/-- `math.radians`: degrees to radians, `deg * pi / 180`. -/
def radians (ops : RealOps) (deg : ℚ) : ℚ := deg * ops.pi / 180

/-- Facts about the abstracted `math` functions that the proofs use.  Each is
a theorem about the genuine real functions on the stated domain. -/
structure OpsFacts (ops : RealOps) : Prop where
  pi_pos : 0 < ops.pi
  sqrt_nonneg : ∀ x : ℚ, 0 ≤ x → 0 ≤ ops.sqrt x
  sqrt_pos : ∀ x : ℚ, 0 < x → 0 < ops.sqrt x
  tan_deg_nonneg : ∀ θ : ℚ, 0 ≤ θ → θ < 90 → 0 ≤ ops.tan (radians ops θ)
  sin_unit : ∀ x : ℚ, 0 ≤ x → x ≤ ops.pi / 2 → 0 ≤ ops.sin x ∧ ops.sin x ≤ 1
  rpow_unit : ∀ t : ℚ, 0 ≤ t → t ≤ 1 →
    0 ≤ ops.rpow t (6/5) ∧ ops.rpow t (6/5) ≤ 1

/-- A simple valuation of the abstract operations (used to instantiate
closed witnesses; any valuation satisfying `OpsFacts` would do). -/
def ops0 : RealOps :=
  { pi := 3, sqrt := fun x => x, sin := fun _ => 0, cos := fun _ => 0,
    tan := fun _ => 0, rpow := fun _ _ => 0 }

/-- A valuation with `cos = 1` everywhere (consistent with the real cosine at
elevation 0°, the only point where witnesses use it). -/
def opsW : RealOps := { ops0 with cos := fun _ => 1 }

/-- A valuation with `sin = 1` everywhere (consistent with the real sine at
90° elevation, the only point where the divergence counterexample uses it). -/
def opsC5 : RealOps := { ops0 with sin := fun _ => 1 }

/-- `math.sqrt`: raises `ValueError` on a negative argument (modelled as
`none`), otherwise the abstract square root. -/
def mathSqrt (ops : RealOps) (x : ℚ) : Option ℚ :=
  if x < 0 then none else some (ops.sqrt x)

/-! ## Drag model (`TrajectoryCalculator.py`, lines 27-71) -/

/-- `MACH_TABLE` from `TrajectoryCalculator.py` (G7 reference, Mach axis). -/
def MACH_TABLE : List ℚ :=
  [0.0, 0.5, 0.7, 0.8, 0.825, 0.85, 0.875, 0.9, 0.925,
   0.95, 0.975, 1.0, 1.025, 1.05, 1.1, 1.2, 1.3, 1.5,
   1.8, 2.0, 2.5, 3.0]

/-- `CD_TABLE` from `TrajectoryCalculator.py` (G7 drag coefficients). -/
def CD_TABLE : List ℚ :=
  [0.1198, 0.1197, 0.1196, 0.1312, 0.1352, 0.1404, 0.1479,
   0.1589, 0.1776, 0.2034, 0.2165, 0.2346, 0.2407, 0.2497,
   0.2596, 0.2677, 0.2680, 0.2656, 0.2458, 0.2344, 0.2049, 0.1776]

/-- Python's `bisect.bisect_left(a, x)` for a list sorted in increasing
order: the leftmost insertion index, i.e. the length of the maximal prefix
of elements `< x`.  (The Python library computes this by binary search; on a
sorted list the two descriptions agree.) -/
def bisect_left (l : List ℚ) (x : ℚ) : ℕ :=
  match l with
  | [] => 0
  | a :: rest => if a < x then bisect_left rest x + 1 else 0

/-- `interpolate_cd_g7` from `TrajectoryCalculator.py`, lines 36-71.
`CD_TABLE[0]` is modelled by `getD 0`, `CD_TABLE[-1]` by `getLastD`. -/
def interpolate_cd_g7 (mach : ℚ) : ℚ :=
  if mach ≤ 0 then CD_TABLE.getD 0 0
  else if MACH_TABLE.getLastD 0 ≤ mach then CD_TABLE.getLastD 0
  else
    let idx := bisect_left MACH_TABLE mach
    if idx = 0 then CD_TABLE.getD 0 0
    else if MACH_TABLE.length ≤ idx then CD_TABLE.getLastD 0
    else
      let mach_low := MACH_TABLE.getD (idx - 1) 0
      let mach_high := MACH_TABLE.getD idx 0
      let cd_low := CD_TABLE.getD (idx - 1) 0
      let cd_high := CD_TABLE.getD idx 0
      if mach_high = mach_low then cd_low
      else cd_low + (mach - mach_low) / (mach_high - mach_low) * (cd_high - cd_low)

/-! ## BC conversion (`TrajectoryCalculator.py`, lines 74-112) -/

/-- `calculate_g7_bc_from_g1`: divide the G1 BC by a boat-tail-angle
dependent conversion factor (source's `if`/`elif` chain, lines 93-112). -/
def calculate_g7_bc_from_g1 (bc_g1 boat_tail_angle_deg : ℚ) : ℚ :=
  let conversion_factor :=
    if boat_tail_angle_deg ≤ 0 then 2.3
    else if 5 ≤ boat_tail_angle_deg ∧ boat_tail_angle_deg < 7 then 2.1
    else if 7 ≤ boat_tail_angle_deg ∧ boat_tail_angle_deg ≤ 9 then 2.0
    else if 9 < boat_tail_angle_deg ∧ boat_tail_angle_deg ≤ 11 then 1.95
    else if boat_tail_angle_deg < 5 then 2.3 - boat_tail_angle_deg / 5 * (2.3 - 2.1)
    else 1.95 - (boat_tail_angle_deg - 11) * 0.01
  bc_g1 / conversion_factor

/-- The conversion factor exactly as the claim words it: flat base 2.3,
linear interpolation on (0°,5°), 2.1 on [5°,7°), 2.0 on [7°,9°], 1.95 on
(9°,11°], linear extrapolation above 11°.  (Stated from the claim, to be
compared against the code's branch structure.) -/
def conversionFactorSpec (θ : ℚ) : ℚ :=
  if θ ≤ 0 then 2.3
  else if θ < 5 then 2.3 - θ / 5 * (2.3 - 2.1)
  else if θ < 7 then 2.1
  else if θ ≤ 9 then 2.0
  else if θ ≤ 11 then 1.95
  else 1.95 - (θ - 11) * 0.01

/-! ## Ballistic metrics (`Calculations.py`) -/

/-- `calculate_sectional_density` (`Calculations.py`, lines 12-33). -/
def calculate_sectional_density (diameter_mm weight_grains : ℚ) : ℚ :=
  if diameter_mm ≤ 0 ∨ weight_grains ≤ 0 then 0
  else
    let diameter_inches := diameter_mm / 25.4
    let weight_lbs := weight_grains / 7000
    weight_lbs / diameter_inches ^ 2

/-- The formatted twist string: `"N/A"` or `"1:{n}\""`. -/
inductive TwistStr where
  | na : TwistStr
  | oneIn (n : ℤ) : TwistStr
  deriving DecidableEq

/-- `calculate_recommended_twist_rate` (`Calculations.py`, lines 87-171).
`none` models the `ValueError` Python raises when the Miller branch takes
`math.sqrt` of a negative number (possible when `weight_grains < 0`). -/
def calculate_recommended_twist_rate (ops : RealOps)
    (diameter_mm length_mm weight_grains : ℚ) (velocity_mps : ℚ := 853)
    (effective_diameter_mm : Option ℚ := none)
    (material_density_g_per_cm3 : Option ℚ := none) : Option (ℚ × TwistStr) :=
  if diameter_mm ≤ 0 ∨ length_mm ≤ 0 then some (0, TwistStr.na)
  else
    let is_monolithic : Bool :=
      match material_density_g_per_cm3 with
      | some d => decide (7 ≤ d ∧ d ≤ 9.5)
      | none => false
    let d_effective := effective_diameter_mm.getD diameter_mm
    let diameter_inches := d_effective / 25.4
    let length_inches := length_mm / 25.4
    let velocity_fps := velocity_mps * 3.28084
    let twistRate : Option ℚ :=
      if is_monolithic then
        let length_calibers := length_inches / diameter_inches
        let numerator := 30 * weight_grains
        let denominator :=
          1.8 * diameter_inches ^ 3 * length_calibers * (1 + length_calibers ^ 2)
        (if 0 < denominator then mathSqrt ops (numerator / denominator)
         else some 0).map fun sqrt_term =>
          let velocity_correction :=
            if 0 < velocity_fps then ops.rpow (2800 / velocity_fps) (1/6) else 1
          diameter_inches * sqrt_term * velocity_correction
      else
        if velocity_fps ≤ 2800 then some (150 * diameter_inches ^ 2 / length_inches)
        else (mathSqrt ops (velocity_fps / 2800)).map fun velocity_factor =>
          150 * diameter_inches ^ 2 / length_inches * velocity_factor
    twistRate.map fun t => ((pyRound t : ℚ), TwistStr.oneIn (pyRound t))

/-- `calculate_stability_factor_miller` (`Calculations.py`, lines 174-292).
Returns `(stability rounded to 2 decimals, threshold)`; `none` models the
`ValueError` from `math.sqrt` of a negative temperature/pressure term. -/
def calculate_stability_factor_miller (ops : RealOps)
    (diameter_mm length_mm weight_grains twist_rate_inches : ℚ)
    (velocity_mps : ℚ := 853) (temperature_c : ℚ := 15)
    (pressure_hpa : ℚ := 1013.25)
    (effective_diameter_mm : Option ℚ := none)
    (material_density_g_per_cm3 : Option ℚ := none) : Option (ℚ × ℚ) :=
  if diameter_mm ≤ 0 ∨ length_mm ≤ 0 ∨ weight_grains ≤ 0 ∨ twist_rate_inches ≤ 0 then
    some (0, 1.5)
  else
    let is_monolithic : Bool :=
      match material_density_g_per_cm3 with
      | some d => decide (7 ≤ d ∧ d ≤ 9.5)
      | none => false
    let stability_threshold : ℚ := if is_monolithic then 1.8 else 1.5
    let d_effective := effective_diameter_mm.getD diameter_mm
    let diameter_inches := d_effective / 25.4
    let length_inches := length_mm / 25.4
    let mass_grains := weight_grains
    let velocity_fps := velocity_mps * 3.28084
    let length_calibers := length_inches / diameter_inches
    let twist_calibers := twist_rate_inches / diameter_inches
    let temperature_f := temperature_c * 9 / 5 + 32
    let pressure_inhg := pressure_hpa * 0.0295299830714
    (mathSqrt ops ((temperature_f + 459.67) / 518.67)).bind fun temp_correction =>
      (mathSqrt ops (pressure_inhg / 29.92)).map fun pressure_correction =>
        let velocity_correction :=
          if 0 < velocity_fps then ops.rpow (velocity_fps / 2800) (1/3) else 1
        let stability := 30 * mass_grains * velocity_correction /
          (twist_calibers ^ 2 * diameter_inches ^ 3 * length_calibers *
            (1 + length_calibers ^ 2))
        (pyRound2 (stability * temp_correction * pressure_correction),
          stability_threshold)

/-! ## Dimension solver (`Calculations.py`, lines 427-671) -/

/-- `GRAINS_TO_GRAMS` (source line 481). -/
def GRAINS_TO_GRAMS : ℚ := 0.06479891

/-- `CM3_TO_MM3` (source line 482). -/
def CM3_TO_MM3 : ℚ := 1000

/-- Ogive families of the source (other strings behave as `Elliptical`). -/
inductive OgiveType where
  | tangent | secant | elliptical
  deriving DecidableEq

/-- Base families of the source (other strings behave as `Flat`). -/
inductive BaseType where
  | flat | boatTail
  deriving DecidableEq

/-- Arguments of `calculate_bullet_dimensions_from_weight`.
`ogive_calibers` is the source's `ogive_caliber_ratio`. -/
structure DimArgs where
  target_weight_grains : ℚ
  groove_diameter_mm : ℚ
  land_diameter_mm : ℚ
  material_density : ℚ
  num_bands : ℕ
  band_length_mm : ℚ
  band_spacing_mm : ℚ
  ogive_calibers : ℚ
  ogive_type : OgiveType
  boat_tail_angle_deg : ℚ
  meplat_diameter_mm : ℚ
  land_riding : Bool

/-- Required volume from target mass (source lines 484-486). -/
def DimArgs.volume_total (a : DimArgs) : ℚ :=
  a.target_weight_grains * GRAINS_TO_GRAMS / a.material_density * CM3_TO_MM3

def DimArgs.r_groove (a : DimArgs) : ℚ := a.groove_diameter_mm / 2

def DimArgs.r_land (a : DimArgs) : ℚ := a.land_diameter_mm / 2

/-- Ogive length (source line 494). -/
def DimArgs.ogive_length (a : DimArgs) : ℚ :=
  a.ogive_calibers * a.groove_diameter_mm / 2

/-- Paraboloid-approximated ogive volume (source line 499). -/
def DimArgs.V_ogive (a : DimArgs) (ops : RealOps) : ℚ :=
  ops.pi * a.r_land * a.r_land * a.ogive_length / 2

/-- Band coverage (source line 526). -/
def DimArgs.band_coverage (a : DimArgs) : ℚ := (a.num_bands : ℚ) * a.band_length_mm

/-- Gap coverage (source line 527). -/
def DimArgs.gap_coverage (a : DimArgs) : ℚ :=
  if 1 < a.num_bands then ((a.num_bands - 1 : ℕ) : ℚ) * a.band_spacing_mm else 0

/-- Annular band volume (source lines 535 / 550 — identical in both
branches). -/
def DimArgs.V_bands (a : DimArgs) (ops : RealOps) : ℚ :=
  (a.num_bands : ℚ) * ops.pi * (a.r_groove * a.r_groove - a.r_land * a.r_land) *
    a.band_length_mm

/-- Radius of the cylinder that absorbs the gap volume: land radius for
land-riding bullets (line 546), groove radius otherwise (line 561). -/
def DimArgs.gap_radius (a : DimArgs) : ℚ := if a.land_riding then a.r_land else a.r_groove

/-- Result record of `calculate_bullet_dimensions_from_weight` (the Python
dict; the diagnostic `validation_message` string is omitted).
`length_diameter` is the source's `length_diameter_ratio`; `meplat_frac` is
the source's `meplat_ratio`. -/
structure DimResult where
  total_length_mm : ℚ
  boat_tail_length_mm : ℚ
  bearing_surface_length_mm : ℚ
  ogive_length_mm : ℚ
  gap_length_needed_mm : ℚ
  gap_coverage_mm : ℚ
  calculated_weight_grains : ℚ
  target_weight_grains : ℚ
  weight_error_percent : ℚ
  ballistic_coefficient_g1 : ℚ
  sectional_density : ℚ
  length_diameter : ℚ
  meplat_frac : ℚ
  form_factor : ℚ
  is_valid : Bool

/-- Failure record (source lines 650-671). -/
def dims_fail (a : DimArgs) (bt gapFinal covFinal : ℚ) : DimResult :=
  { total_length_mm := 0
    boat_tail_length_mm := bt
    bearing_surface_length_mm := 0
    ogive_length_mm := a.ogive_length
    gap_length_needed_mm := gapFinal
    gap_coverage_mm := covFinal
    calculated_weight_grains := 0
    target_weight_grains := a.target_weight_grains
    weight_error_percent := 100
    ballistic_coefficient_g1 := 0
    sectional_density := 0
    length_diameter := 0
    meplat_frac :=
      if 0 < a.groove_diameter_mm then a.meplat_diameter_mm / a.groove_diameter_mm else 0
    form_factor := 0
    is_valid := false }

/-- Success record (source lines 567-645): total length, weight check and
G1-BC computation. -/
def dims_success (ops : RealOps) (a : DimArgs) (bt r_base gap_len : ℚ) : DimResult :=
  let total_bearing := a.band_coverage + gap_len
  let total_length := bt + total_bearing + a.ogive_length
  let V_ogive_check := ops.pi * a.r_land * a.r_land * a.ogive_length / 2
  let V_boattail_check :=
    ops.pi * bt / 3 * (r_base * r_base + r_base * a.r_land + a.r_land * a.r_land)
  let V_bands_check :=
    (a.num_bands : ℚ) * ops.pi * (a.r_groove * a.r_groove - a.r_land * a.r_land) *
      a.band_length_mm
  let V_gaps_check := gap_len * ops.pi * a.gap_radius * a.gap_radius
  let V_total_check := V_ogive_check + V_boattail_check + V_bands_check + V_gaps_check
  let calculated_weight_g := V_total_check / CM3_TO_MM3 * a.material_density
  let calculated_weight_grains := calculated_weight_g / GRAINS_TO_GRAMS
  let diameter_in := a.groove_diameter_mm / 25.4
  let length_in := total_length / 25.4
  let weight_lbs := a.target_weight_grains / 7000
  let SD := weight_lbs / (diameter_in * diameter_in)
  let i0 : ℚ :=
    match a.ogive_type with
    | .tangent => 0.85
    | .secant => 0.80
    | .elliptical => 0.75
  let length_ratio_v := length_in / diameter_in
  let i1 := if 4 < length_ratio_v then i0 * 0.95
    else if length_ratio_v < 3 then i0 * 1.05 else i0
  let meplat_v := a.meplat_diameter_mm / a.groove_diameter_mm
  let i2 := if 0.3 < meplat_v then i1 * 1.10
    else if meplat_v < 0.1 then i1 * 0.98 else i1
  let i3 := if 0 < a.boat_tail_angle_deg then i2 * 0.95 else i2
  { total_length_mm := total_length
    boat_tail_length_mm := bt
    bearing_surface_length_mm := total_bearing
    ogive_length_mm := a.ogive_length
    gap_length_needed_mm := gap_len
    gap_coverage_mm := a.gap_coverage
    calculated_weight_grains := calculated_weight_grains
    target_weight_grains := a.target_weight_grains
    weight_error_percent :=
      |calculated_weight_grains - a.target_weight_grains| / a.target_weight_grains * 100
    ballistic_coefficient_g1 := SD / i3
    sectional_density := SD
    length_diameter := length_ratio_v
    meplat_frac := meplat_v
    form_factor := i3
    is_valid := true }

/-- The boat-tail shrink-and-retry loop of
`calculate_bullet_dimensions_from_weight` (source lines 505-649), with the
iteration budget as structural fuel.  `lastGap`/`lastCov` carry the values
that the failure path recovers through `locals()` (lines 651-652). -/
def dims_loop (ops : RealOps) (a : DimArgs) :
    ℕ → ℚ → Option ℚ → Option ℚ → DimResult
  | 0, bt, lastGap, lastCov => dims_fail a bt (lastGap.getD 0) (lastCov.getD 0)
  | n + 1, bt, lastGap, lastCov =>
    let bt_reduction := bt * ops.tan (radians ops a.boat_tail_angle_deg)
    let r_base := max (a.r_land - bt_reduction) (a.r_groove * 0.3)
    let V_boattail :=
      ops.pi * bt / 3 * (r_base * r_base + r_base * a.r_land + a.r_land * a.r_land)
    let V_bearing := a.volume_total - a.V_ogive ops - V_boattail
    if V_bearing ≤ 0 then dims_loop ops a n (bt * 0.8) lastGap lastCov
    else
      let V_gaps := V_bearing - a.V_bands ops
      if V_gaps < 0 then dims_loop ops a n (bt * 0.9) lastGap (some a.gap_coverage)
      else
        let gap_len := V_gaps / (ops.pi * a.gap_radius * a.gap_radius)
        if a.gap_coverage ≤ gap_len then dims_success ops a bt r_base gap_len
        else dims_loop ops a n (bt * 0.9) (some gap_len) (some a.gap_coverage)

/-- `calculate_bullet_dimensions_from_weight` (`Calculations.py`, lines
427-671): iterative reverse solver from target weight to dimensions; the
boat-tail start estimate is `groove_diameter * 0.7` (line 502). -/
def calculate_bullet_dimensions_from_weight (ops : RealOps) (a : DimArgs)
    (max_iterations : ℕ := 10) : DimResult :=
  dims_loop ops a max_iterations (a.groove_diameter_mm * 0.7) none none

/-! ## Profile generator (`GeometryHelpers.py`, lines 14-415) -/

/-- `generate_tangent_ogive_radius` (`GeometryHelpers.py`, lines 324-381).
The `try`/`except ValueError` around the square root is unreachable for
`0 < u < 1` (its argument `1 - u*u` is then positive) and is not modelled. -/
def generate_tangent_ogive_radius (ops : RealOps)
    (t base_radius tip_radius length : ℚ) : ℚ :=
  if length ≤ 0 ∨ base_radius ≤ tip_radius then
    base_radius - (base_radius - tip_radius) * t
  else
    let delta_r := base_radius - tip_radius
    if delta_r ≤ 0 then base_radius
    else
      let x := t * length
      let u := x / length
      if u ≤ 0 then base_radius
      else if 1 ≤ u then tip_radius
      else max tip_radius (min base_radius (tip_radius + delta_r * ops.sqrt (1 - u * u)))

/-- `generate_secant_ogive_radius` (`GeometryHelpers.py`, lines 384-397):
`t ** 1.2` becomes `rpow t (6/5)`. -/
def generate_secant_ogive_radius (ops : RealOps)
    (t base_radius tip_radius length : ℚ) : ℚ :=
  base_radius - (base_radius - tip_radius) * ops.rpow t (6/5)

/-- `generate_elliptical_ogive_radius` (`GeometryHelpers.py`, lines
400-415). -/
def generate_elliptical_ogive_radius (ops : RealOps)
    (t base_radius tip_radius length : ℚ) : ℚ :=
  let angle := ops.pi / 2 * (1 - t)
  tip_radius + (base_radius - tip_radius) * ops.sin angle

/-- The land-riding driving-band loop of `generate_bullet_profile_points`
(source lines 131-169), including the `break` and the trailing
"ensure a point at body end" step (lines 168-169), which in Python runs
after the loop whether or not it broke. -/
def bandLoopLand (body_radius radius_groove band_length band_spacing body_end_z : ℚ) :
    ℕ → ℕ → ℚ → List (ℚ × ℚ)
  | 0, _, current_z =>
    if current_z < body_end_z then [(body_end_z, body_radius)] else []
  | n + 1, i, current_z =>
    let band_start_z := if i = 0 then current_z else current_z + band_spacing
    if body_end_z ≤ band_start_z then
      if current_z < body_end_z then [(body_end_z, body_radius)] else []
    else
      let l1 := if current_z + 0.1 < band_start_z then [(band_start_z, body_radius)] else []
      let band_start_expand_z := band_start_z + 0.2
      let l2 := if band_start_expand_z < body_end_z then
          [(band_start_expand_z, radius_groove)] else []
      let band_end_z := min (band_start_z + band_length) body_end_z
      let band_end_expand_z := band_end_z - 0.2
      let l3 := if band_start_expand_z < band_end_expand_z then
          [(band_end_expand_z, radius_groove)] else []
      let l4 := if band_end_z < body_end_z then [(band_end_z, body_radius)] else []
      l1 ++ l2 ++ l3 ++ l4 ++
        bandLoopLand body_radius radius_groove band_length band_spacing body_end_z
          n (i + 1) band_end_z

/-- The groove-riding driving-band loop (source lines 201-231), with its
trailing body-end step (lines 230-231). -/
def bandLoopGroove (radius_groove band_length band_spacing body_end_z : ℚ) :
    ℕ → ℕ → ℚ → List (ℚ × ℚ)
  | 0, _, current_z =>
    if current_z < body_end_z then [(body_end_z, radius_groove)] else []
  | n + 1, i, current_z =>
    let band_start_z := if i = 0 then current_z else current_z + band_spacing
    if body_end_z ≤ band_start_z then
      if current_z < body_end_z then [(body_end_z, radius_groove)] else []
    else
      let band_start_expand_z := band_start_z + 0.2
      let l2 := if band_start_expand_z < body_end_z then
          [(band_start_expand_z, radius_groove * 1.01)] else []
      let band_end_z := min (band_start_z + band_length) body_end_z
      let band_end_expand_z := band_end_z - 0.2
      let l3 := if band_start_expand_z < band_end_expand_z then
          [(band_end_expand_z, radius_groove * 1.01)] else []
      let l4 := if band_end_z < body_end_z then [(band_end_z, radius_groove)] else []
      l2 ++ l3 ++ l4 ++
        bandLoopGroove radius_groove band_length band_spacing body_end_z
          n (i + 1) band_end_z

/-- Index of the first element of `ts` minimising `|t - 1/2|` — Python's
`min(range(len(t_values)), key=lambda i: abs(t_values[i] - 0.5))`
(source line 276). -/
def closestIdx (ts : List ℚ) : ℕ :=
  (ts.enum.foldl
    (fun b p => if |p.2 - 1/2| < |b.2 - 1/2| then p else b)
    (0, ts.getD 0 0)).1

/-- The ogive parameter list (source lines 268-279): `i / n` for
`i = 0..n`, with the element closest to `0.5` replaced by `0.5` when `0.5`
is not already present, then sorted (Python's stable `.sort()`, modelled by
insertion sort, also stable). -/
def tValues (n : ℕ) : List ℚ :=
  let ts0 := (List.range (n + 1)).map fun i : ℕ => (i : ℚ) / (n : ℚ)
  if (1/2 : ℚ) ∈ ts0 then ts0
  else List.insertionSort (· ≤ ·) (ts0.set (closestIdx ts0) (1/2))

/-- Arguments of `generate_bullet_profile_points`.  String parameters
`ogive_type` / `base_type` become the inductives `OgiveType` / `BaseType`
(the source treats unknown ogive strings as elliptical and unknown base
strings as flat); `ogive_calibers` is the source's `ogive_caliber_ratio`.
The source function's local variables become the named definitions below,
each annotated with its source lines. -/
structure ProfileArgs where
  diameter_mm : ℚ
  land_diameter_mm : ℚ
  length_mm : ℚ
  ogive_type : OgiveType
  ogive_calibers : ℚ
  meplat_diameter_mm : ℚ
  num_bands : ℕ
  band_length_mm : ℚ
  band_spacing_mm : ℚ
  base_type : BaseType
  boat_tail_length_mm : ℚ
  boat_tail_angle_deg : ℚ
  land_riding : Bool

/-- `radius_groove` (source line 54). -/
def ProfileArgs.radius_groove (g : ProfileArgs) : ℚ := g.diameter_mm / 2

/-- `body_radius` (source lines 57-66): land radius clamped below the
groove radius when land-riding, else the groove radius. -/
def ProfileArgs.body_radius (g : ProfileArgs) : ℚ :=
  if g.land_riding then
    (if g.radius_groove ≤ g.land_diameter_mm / 2 then g.radius_groove * 0.98
     else g.land_diameter_mm / 2)
  else g.radius_groove

/-- `meplat_radius` after validation (source lines 69-72). -/
def ProfileArgs.meplat_radius (g : ProfileArgs) : ℚ :=
  if g.body_radius ≤ g.meplat_diameter_mm / 2 then g.body_radius * 0.5
  else g.meplat_diameter_mm / 2

/-- The boat-tail branch condition of line 79. -/
def ProfileArgs.useBT (g : ProfileArgs) : Prop :=
  g.base_type = BaseType.boatTail ∧ 0 < g.boat_tail_length_mm

instance (g : ProfileArgs) : Decidable g.useBT := by
  unfold ProfileArgs.useBT; infer_instance

/-- Axial position after the base section (lines 75-87). -/
def ProfileArgs.z_pos (g : ProfileArgs) : ℚ :=
  if g.useBT then g.boat_tail_length_mm else 0

/-- Base-section points (lines 79-90). -/
def ProfileArgs.basePts (g : ProfileArgs) (ops : RealOps) : List (ℚ × ℚ) :=
  if g.useBT then
    [(0, max (g.radius_groove - g.boat_tail_length_mm *
          ops.tan (radians ops g.boat_tail_angle_deg)) (g.radius_groove * 0.3)),
     (g.boat_tail_length_mm, g.radius_groove)]
  else [(0, g.radius_groove)]

/-- `ogive_length` (lines 100 / 178 / 246 — same formula). -/
def ProfileArgs.ogive_length (g : ProfileArgs) : ℚ :=
  g.ogive_calibers * g.diameter_mm / 2

/-- `body_length` with its 0.1 mm floor (lines 103-107 / 181-184). -/
def ProfileArgs.body_length (g : ProfileArgs) : ℚ :=
  if g.length_mm - g.z_pos - g.ogive_length ≤ 0 then
    max 0.1 (g.length_mm - g.z_pos - g.ogive_length)
  else g.length_mm - g.z_pos - g.ogive_length

/-- `body_end_z` (line 111 / 186). -/
def ProfileArgs.body_end_z (g : ProfileArgs) : ℚ := g.z_pos + g.body_length

/-- `total_band_space` (lines 119-121 / 192-194). -/
def ProfileArgs.total_band_space (g : ProfileArgs) : ℚ :=
  (g.num_bands : ℚ) * g.band_length_mm +
    (if 1 < g.num_bands then ((g.num_bands - 1 : ℕ) : ℚ) * g.band_spacing_mm else 0)

/-- The band spacing actually used, rescaled when the bands do not fit
(lines 124-129 / 196-199). -/
def ProfileArgs.spacing (g : ProfileArgs) : ℚ :=
  if g.body_length < g.total_band_space ∧ 1 < g.num_bands then
    max 0.1 ((g.body_length - (g.num_bands : ℚ) * g.band_length_mm) /
      ((g.num_bands - 1 : ℕ) : ℚ))
  else g.band_spacing_mm

/-- Body-section points (lines 92-241). -/
def ProfileArgs.bodyPts (g : ProfileArgs) (ops : RealOps) : List (ℚ × ℚ) :=
  if g.land_riding then
    (g.z_pos, g.body_radius) ::
      (if 0 < g.num_bands then
        bandLoopLand g.body_radius g.radius_groove g.band_length_mm g.spacing
          g.body_end_z g.num_bands 0 g.z_pos
      else [(g.body_end_z, g.body_radius)])
  else
    if 0 < g.num_bands then
      bandLoopGroove g.radius_groove g.band_length_mm g.spacing g.body_end_z
        g.num_bands 0 g.z_pos
    else
      (if ((g.basePts ops).getLastD (0, 0)).1 = g.z_pos then []
       else [(g.z_pos, g.radius_groove)]) ++
        [(g.body_end_z, g.radius_groove)]

/-- `actual_ogive_length` (line 254): the ogive must end at the tip. -/
def ProfileArgs.actual_ogive_length (g : ProfileArgs) : ℚ :=
  g.length_mm - g.body_end_z

/-- `num_ogive_points` (line 265): at least 20, about one per mm. -/
def ProfileArgs.num_ogive_points (g : ProfileArgs) : ℕ :=
  max 20 (⌊g.actual_ogive_length * 1⌋.toNat)

/-- The per-family ogive radius (lines 284-298). -/
def ProfileArgs.ogiveRadius (g : ProfileArgs) (ops : RealOps) (t : ℚ) : ℚ :=
  match g.ogive_type with
  | .tangent =>
      generate_tangent_ogive_radius ops t g.body_radius g.meplat_radius
        g.actual_ogive_length
  | .secant =>
      generate_secant_ogive_radius ops t g.body_radius g.meplat_radius
        g.actual_ogive_length
  | .elliptical =>
      generate_elliptical_ogive_radius ops t g.body_radius g.meplat_radius
        g.actual_ogive_length

/-- Ogive points (lines 281-300). -/
def ProfileArgs.ogivePts (g : ProfileArgs) (ops : RealOps) : List (ℚ × ℚ) :=
  (tValues g.num_ogive_points).map fun t =>
    (g.body_end_z + t * g.actual_ogive_length, g.ogiveRadius ops t)

/-- All points before the tip block: the on-axis start (line 76), base,
body and ogive sections. -/
def ProfileArgs.preTip (g : ProfileArgs) (ops : RealOps) : List (ℚ × ℚ) :=
  (0, 0) :: (g.basePts ops ++ g.bodyPts ops ++ g.ogivePts ops)

/-- Tip block (lines 302-319); both meplat-zero sub-branches of the source
append the same on-axis point. -/
def ProfileArgs.tipPts (g : ProfileArgs) (ops : RealOps) : List (ℚ × ℚ) :=
  if 0 < g.meplat_radius then
    (if 1/1000 < |((g.preTip ops).getLastD (0, 0)).1 - g.length_mm| then
      [(g.length_mm, g.meplat_radius)] else []) ++
      [(g.length_mm, 0)]
  else [(g.length_mm, 0)]

/-- `generate_bullet_profile_points` (`GeometryHelpers.py`, lines 14-321):
the ordered `(Z, R)` half-profile for revolution. -/
def generate_bullet_profile_points (ops : RealOps) (g : ProfileArgs) :
    List (ℚ × ℚ) :=
  g.preTip ops ++ g.tipPts ops

/-! ## Trajectory integrator (`TrajectoryCalculator.py`, lines 164-332) -/

/-- `calculate_spin_drift` (source lines 164-201): Litz-style empirical
power law (`** 1.83` and `** 1.5` become `rpow`). -/
def calculate_spin_drift (ops : RealOps)
    (stability_factor length_mm diameter_mm range_m : ℚ) : ℚ :=
  if diameter_mm ≤ 0 ∨ length_mm ≤ 0 then 0
  else
    let length_inches := length_mm / 25.4
    let diameter_inches := diameter_mm / 25.4
    let bullet_length_calibers := length_inches / diameter_inches
    let drift_per_100yd :=
      1.25 * (stability_factor + 1.2) * ops.rpow bullet_length_calibers (183/100)
    let drift_per_100m := drift_per_100yd * 25.4 * (100 / 91.44)
    drift_per_100m * ops.rpow (range_m / 100) (3/2)

/-- The RK4 state vector `[x, y, vx, vy]`. -/
structure RKVec where
  x : ℚ
  y : ℚ
  vx : ℚ
  vy : ℚ
  deriving DecidableEq

/-- `trajectory_derivatives` (source lines 204-246), returned as the vector
`[dx, dy, dvx, dvy]`. -/
def trajectory_derivatives (ops : RealOps) (st : RKVec) (rho A m_kg i7 c : ℚ) : RKVec :=
  let v := ops.sqrt (st.vx * st.vx + st.vy * st.vy)
  if v ≤ 0 then ⟨0, 0, 0, -9.80665⟩
  else
    let mach := if 0 < c then v / c else 0
    let cd_g7 := interpolate_cd_g7 mach
    let cd := i7 * cd_g7
    let F_drag := 0.5 * rho * v * v * cd * A
    ⟨st.vx, st.vy, -(F_drag / m_kg) * (st.vx / v),
      -(F_drag / m_kg) * (st.vy / v) - 9.80665⟩

/-- `state + a • k`, the substep combination of the RK4 scheme. -/
def rkAxpy (st : RKVec) (a : ℚ) (k : RKVec) : RKVec :=
  ⟨st.x + a * k.x, st.y + a * k.y, st.vx + a * k.vx, st.vy + a * k.vy⟩

/-- One RK4 update (source lines 294-305). -/
def rk4_step (ops : RealOps) (st : RKVec) (rho A m_kg i7 c dt : ℚ) : RKVec :=
  let k1 := trajectory_derivatives ops st rho A m_kg i7 c
  let k2 := trajectory_derivatives ops (rkAxpy st (dt/2) k1) rho A m_kg i7 c
  let k3 := trajectory_derivatives ops (rkAxpy st (dt/2) k2) rho A m_kg i7 c
  let k4 := trajectory_derivatives ops (rkAxpy st dt k3) rho A m_kg i7 c
  ⟨st.x + dt/6 * (k1.x + 2*k2.x + 2*k3.x + k4.x),
   st.y + dt/6 * (k1.y + 2*k2.y + 2*k3.y + k4.y),
   st.vx + dt/6 * (k1.vx + 2*k2.vx + 2*k3.vx + k4.vx),
   st.vy + dt/6 * (k1.vy + 2*k2.vy + 2*k3.vy + k4.vy)⟩

/-- One output row `(range, velocity, mach, drop, spin drift, time)`. -/
structure TrajSample where
  range_m : ℚ
  velocity : ℚ
  mach : ℚ
  drop_cm : ℚ
  spin_drift_mm : ℚ
  time_s : ℚ
  deriving DecidableEq

/-- The `while True` loop of `integrate_trajectory_rk4` (source lines
293-331) with explicit fuel: `some samples` when a termination guard fires
within `fuel` iterations, `none` otherwise.  Guard order and the
100-unit output sampling follow the source exactly. -/
def rk4_loop (ops : RealOps)
    (rho A m_kg i7 c max_range_m min_velocity stability_factor length_mm diameter_mm : ℚ) :
    ℕ → RKVec → ℚ → ℚ → List TrajSample → Option (List TrajSample)
  | 0, _, _, _, _ => none
  | fuel + 1, st, t, last_output_range, acc =>
    let st' := rk4_step ops st rho A m_kg i7 c 0.001
    let t' := t + 0.001
    let v := ops.sqrt (st'.vx * st'.vx + st'.vy * st'.vy)
    let mach := if 0 < c then v / c else 0
    if v < min_velocity then some acc
    else if max_range_m ≤ st'.x then some acc
    else if st'.y < -1000 then some acc
    else if 100 ≤ st'.x - last_output_range then
      rk4_loop ops rho A m_kg i7 c max_range_m min_velocity stability_factor
        length_mm diameter_mm fuel st' t' st'.x
        (acc ++ [⟨st'.x, v, mach, -st'.y * 100,
          calculate_spin_drift ops stability_factor length_mm diameter_mm st'.x, t'⟩])
    else
      rk4_loop ops rho A m_kg i7 c max_range_m min_velocity stability_factor
        length_mm diameter_mm fuel st' t' last_output_range acc

/-- `integrate_trajectory_rk4` (source lines 249-332). -/
def integrate_trajectory_rk4 (ops : RealOps) (fuel : ℕ)
    (v0_mps elevation_deg rho A m_kg i7 c max_range_m stability_factor
      length_mm diameter_mm : ℚ)
    (min_velocity_mps : ℚ := 50) : Option (List TrajSample) :=
  let er := radians ops elevation_deg
  rk4_loop ops rho A m_kg i7 c max_range_m min_velocity_mps stability_factor
    length_mm diameter_mm fuel
    ⟨0, 0, v0_mps * ops.cos er, v0_mps * ops.sin er⟩ 0 (-100) []

/-- Net vertical acceleration arising in the divergence scenario of the
termination analysis: state `(0, y, 0, w)` above the drag table's Mach
range, unit density, area, mass and speed of sound, form factor `-1`:
`ay = 0.5 * w^2 * w^2 * 0.1776 * (w / w^2) - 9.80665`. -/
def aY (w : ℚ) : ℚ := 111 / 1250 * w ^ 3 - 196133 / 20000

/-! # Part 2: theorems -/

theorem ops0_facts : OpsFacts ops0 := by
  constructor <;> norm_num [ops0]

theorem opsW_facts : OpsFacts opsW := by
  constructor <;> norm_num [opsW, ops0]

theorem opsC5_facts : OpsFacts opsC5 := by
  constructor <;> norm_num [opsC5, ops0]

/-- Gluing lemma: two chains (under `zle`) concatenate to a chain when some
midpoint `m` separates all axial positions of the first list from those of
the second. -/
theorem chain'_glue {l1 l2 : List (ℚ × ℚ)} {m : ℚ}
    (h1 : List.Chain' zle l1) (h2 : List.Chain' zle l2)
    (b1 : ∀ p ∈ l1, p.1 ≤ m) (b2 : ∀ p ∈ l2, m ≤ p.1) :
    List.Chain' zle (l1 ++ l2) := by
  rw [List.chain'_append]
  refine ⟨h1, h2, ?_⟩
  intro x hx y hy
  have hxm : x ∈ l1 := List.mem_of_mem_getLast? hx
  have hym : y ∈ l2 := List.mem_of_mem_head? hy
  exact le_trans (b1 x hxm) (b2 y hym)

theorem mach_table_chain : List.Chain' (· < ·) MACH_TABLE := by
  norm_num [MACH_TABLE, List.chain'_cons]

theorem mach_table_sorted : MACH_TABLE.Sorted (· < ·) :=
  List.chain'_iff_pairwise.mp mach_table_chain

theorem mach_table_len : MACH_TABLE.length = 22 := rfl

theorem cd_table_len : CD_TABLE.length = 22 := rfl

/-- Characterisation of `bisect_left`: if the first `n` entries are `< x` and
entry `n` (when it exists) is `≥ x`, the insertion index is `n`. -/
theorem bisect_left_eq (x : ℚ) :
    ∀ (l : List ℚ) (n : ℕ), n ≤ l.length →
      (∀ j, j < n → l.getD j 0 < x) →
      (n < l.length → x ≤ l.getD n 0) →
      bisect_left l x = n := by
  intro l
  induction l with
  | nil =>
      intro n hn _ _
      have hn0 : n = 0 := by simpa using hn
      subst hn0
      rfl
  | cons a rest ih =>
      intro n hn hlt hge
      cases n with
      | zero =>
          have hx : x ≤ a := hge (by simp)
          simp [bisect_left, not_lt.mpr hx]
      | succ m =>
          have ha : a < x := hlt 0 (Nat.succ_pos m)
          have : bisect_left rest x = m := by
            refine ih m (by simpa [Nat.succ_le_succ_iff] using hn) ?_ ?_
            · intro j hj
              have := hlt (j + 1) (Nat.succ_lt_succ hj)
              simpa using this
            · intro hm
              have := hge (by simpa [Nat.succ_lt_succ_iff] using hm)
              simpa using this
          simp [bisect_left, ha, this]

/-- Entries of `MACH_TABLE` are pairwise increasing under `getD`. -/
theorem mach_table_getD_lt {i j : ℕ} (hij : i < j) (hj : j < 22) :
    MACH_TABLE.getD i 0 < MACH_TABLE.getD j 0 := by
  have hlen : MACH_TABLE.length = 22 := mach_table_len
  have hj' : j < MACH_TABLE.length := by omega
  have hi' : i < MACH_TABLE.length := by omega
  have hp := List.pairwise_iff_getElem.mp mach_table_sorted i j hi' hj' hij
  rwa [List.getD_eq_getElem _ _ hi', List.getD_eq_getElem _ _ hj']

/-- For `MACH_TABLE.getD i 0 < m ≤ MACH_TABLE.getD (i+1) 0` with `i+1 < 22`,
the bisection index is `i+1`. -/
theorem bisect_left_mach {m : ℚ} {i : ℕ} (h : i + 1 < 22)
    (hlo : MACH_TABLE.getD i 0 < m) (hhi : m ≤ MACH_TABLE.getD (i + 1) 0) :
    bisect_left MACH_TABLE m = i + 1 := by
  refine bisect_left_eq m MACH_TABLE (i + 1) (by rw [mach_table_len]; omega) ?_ ?_
  · intro j hj
    rcases Nat.lt_succ_iff_lt_or_eq.mp hj with hj' | hj'
    · exact lt_trans (mach_table_getD_lt hj' (by omega)) hlo
    · subst hj'; exact hlo
  · intro _
    exact hhi

/-- The first Mach entry is `0`, so entries at positive index are positive. -/
theorem mach_table_getD_pos {i : ℕ} (hi : 0 < i) (h : i < 22) :
    0 < MACH_TABLE.getD i 0 := by
  have h0 : MACH_TABLE.getD 0 0 = 0 := by norm_num [MACH_TABLE]
  have := mach_table_getD_lt hi h
  rwa [h0] at this

/-- Below-range behaviour of the interpolator (source lines 48-49). -/
theorem interp_cd_of_nonpos {m : ℚ} (hm : m ≤ 0) :
    interpolate_cd_g7 m = 0.1198 := by
  rw [interpolate_cd_g7, if_pos hm]
  norm_num [CD_TABLE]

/-- Above-range behaviour of the interpolator (source lines 50-51). -/
theorem interp_cd_of_ge_max {m : ℚ} (hm : 3 ≤ m) :
    interpolate_cd_g7 m = 0.1776 := by
  have h0 : ¬ m ≤ 0 := by linarith
  have h1 : MACH_TABLE.getLastD 0 ≤ m := by
    norm_num [MACH_TABLE]
    linarith
  rw [interpolate_cd_g7, if_neg h0, if_pos h1]
  norm_num [CD_TABLE]

/-- In-range behaviour: between two bracketing table entries the result is
the linear interpolation between the corresponding drag coefficients. -/
theorem interp_cd_bracket {m : ℚ} {i : ℕ} (h : i + 1 < 22)
    (hlo : MACH_TABLE.getD i 0 < m) (hhi : m ≤ MACH_TABLE.getD (i + 1) 0)
    (hm3 : m < 3) :
    interpolate_cd_g7 m =
      CD_TABLE.getD i 0 +
        (m - MACH_TABLE.getD i 0) /
          (MACH_TABLE.getD (i + 1) 0 - MACH_TABLE.getD i 0) *
          (CD_TABLE.getD (i + 1) 0 - CD_TABLE.getD i 0) := by
  have hpos0 : (0 : ℚ) ≤ MACH_TABLE.getD i 0 := by
    rcases Nat.eq_zero_or_pos i with hi | hi
    · subst hi; norm_num [MACH_TABLE]
    · exact le_of_lt (mach_table_getD_pos hi (by omega))
  have h0 : ¬ m ≤ 0 := by linarith
  have h1 : ¬ MACH_TABLE.getLastD 0 ≤ m := by
    norm_num [MACH_TABLE]
    linarith
  have hidx := bisect_left_mach h hlo hhi
  have hne : MACH_TABLE.getD (i + 1) 0 ≠ MACH_TABLE.getD i 0 :=
    ne_of_gt (mach_table_getD_lt (Nat.lt_succ_self i) h)
  rw [interpolate_cd_g7, if_neg h0, if_neg h1]
  simp only [hidx, mach_table_len]
  rw [if_neg (by omega : ¬ i + 1 = 0), if_neg (by omega : ¬ 22 ≤ i + 1),
    if_neg (by simpa using hne)]
  simp

/-- `interpolate_cd_g7` agrees with the segment formula on the closed
bracketing interval `[MACH_TABLE[i], MACH_TABLE[i+1]]` (endpoints included,
including the last interval ending at Mach 3). -/
theorem interp_cd_segment {m : ℚ} {i : ℕ} (h : i + 1 < 22)
    (hlo : MACH_TABLE.getD i 0 ≤ m) (hhi : m ≤ MACH_TABLE.getD (i + 1) 0) :
    interpolate_cd_g7 m =
      CD_TABLE.getD i 0 +
        (m - MACH_TABLE.getD i 0) /
          (MACH_TABLE.getD (i + 1) 0 - MACH_TABLE.getD i 0) *
          (CD_TABLE.getD (i + 1) 0 - CD_TABLE.getD i 0) := by
  have hveq : MACH_TABLE.getD 21 0 = 3 := by norm_num [MACH_TABLE]
  have hle21 : MACH_TABLE.getD (i + 1) 0 ≤ 3 := by
    rcases eq_or_lt_of_le (show i + 1 ≤ 21 by omega) with h21 | h21
    · rw [h21, hveq]
    · have := mach_table_getD_lt h21 (by norm_num)
      linarith [hveq]
  have hm3' : m ≤ 3 := le_trans hhi hle21
  rcases eq_or_lt_of_le hlo with heq | hlt
  · -- left endpoint: the interpolant returns exactly the low table value
    cases i with
    | zero =>
        have hm : m = 0 := by
          have h0 : MACH_TABLE.getD 0 0 = 0 := by norm_num [MACH_TABLE]
          rw [h0] at heq
          exact heq.symm
        rw [hm, interp_cd_of_nonpos (le_refl 0)]
        norm_num [MACH_TABLE, CD_TABLE]
    | succ j =>
        have hj2 : j + 1 < 22 := by omega
        have hstep : MACH_TABLE.getD j 0 < MACH_TABLE.getD (j + 1) 0 :=
          mach_table_getD_lt (Nat.lt_succ_self j) hj2
        have hlo' : MACH_TABLE.getD j 0 < m := by
          rw [← heq]
          exact hstep
        have hhi' : m ≤ MACH_TABLE.getD (j + 1) 0 := le_of_eq heq.symm
        have hm3 : m < 3 := by
          rw [← heq]
          have := mach_table_getD_lt (show j + 1 < 21 by omega) (by norm_num)
          linarith [hveq]
        rw [interp_cd_bracket hj2 hlo' hhi' hm3, ← heq]
        have hΔ : MACH_TABLE.getD (j + 1) 0 - MACH_TABLE.getD j 0 ≠ 0 :=
          sub_ne_zero.mpr (ne_of_gt hstep)
        rw [sub_self, zero_div, zero_mul, add_zero, div_self hΔ, one_mul]
        ring
  · rcases lt_or_eq_of_le hm3' with hm3 | hm3
    · exact interp_cd_bracket h hlt hhi hm3
    · -- right edge of the whole table: m = 3, so i must be 20
      have hi20 : i = 20 := by
        by_contra hne
        have hi21 : i + 1 < 21 := by omega
        have := mach_table_getD_lt hi21 (by norm_num)
        rw [hveq] at this
        linarith [hhi]
      subst hi20
      rw [hm3, interp_cd_of_ge_max (le_refl 3)]
      norm_num [MACH_TABLE, CD_TABLE]

/-- On each bracketing interval the interpolant is monotone in the direction
of the drag-table difference. -/
theorem interp_cd_mono {i : ℕ} (h : i + 1 < 22) {m1 m2 : ℚ}
    (h1 : MACH_TABLE.getD i 0 ≤ m1) (h12 : m1 ≤ m2)
    (h2 : m2 ≤ MACH_TABLE.getD (i + 1) 0) :
    (CD_TABLE.getD i 0 ≤ CD_TABLE.getD (i + 1) 0 →
      interpolate_cd_g7 m1 ≤ interpolate_cd_g7 m2) ∧
    (CD_TABLE.getD (i + 1) 0 ≤ CD_TABLE.getD i 0 →
      interpolate_cd_g7 m2 ≤ interpolate_cd_g7 m1) := by
  have e1 := interp_cd_segment h h1 (le_trans h12 h2)
  have e2 := interp_cd_segment h (le_trans h1 h12) h2
  have hΔ : 0 < MACH_TABLE.getD (i + 1) 0 - MACH_TABLE.getD i 0 :=
    sub_pos.mpr (mach_table_getD_lt (Nat.lt_succ_self i) h)
  have hdiv : (m1 - MACH_TABLE.getD i 0) /
        (MACH_TABLE.getD (i + 1) 0 - MACH_TABLE.getD i 0) ≤
      (m2 - MACH_TABLE.getD i 0) /
        (MACH_TABLE.getD (i + 1) 0 - MACH_TABLE.getD i 0) :=
    (div_le_div_iff_of_pos_right hΔ).mpr (by linarith)
  constructor <;> intro hcd <;> rw [e1, e2]
  · have hd : (0 : ℚ) ≤ CD_TABLE.getD (i + 1) 0 - CD_TABLE.getD i 0 :=
      sub_nonneg.mpr hcd
    nlinarith [mul_le_mul_of_nonneg_right hdiv hd]
  · have hd : CD_TABLE.getD (i + 1) 0 - CD_TABLE.getD i 0 ≤ 0 :=
      sub_nonpos.mpr hcd
    nlinarith [mul_le_mul_of_nonpos_right hdiv hd]

/-! ## Claim: drag interpolation (C3) -/

/-- **C3.** For every Mach `m`: if `m ≤ 0` the interpolator returns the
first table Cd (0.1198); if `m ≥ 3.0` (the table maximum) it returns the
last table Cd (0.1776); otherwise it returns the linear interpolation
between the two bracketing table entries found by the bisection search; and
over each closed interval between adjacent table entries the returned value
is monotone in `m` (in the direction of the corresponding Cd entries). -/
theorem interpolate_cd_g7_spec :
    (∀ m : ℚ, m ≤ 0 → interpolate_cd_g7 m = 0.1198) ∧
    (∀ m : ℚ, 3 ≤ m → interpolate_cd_g7 m = 0.1776) ∧
    (∀ (m : ℚ) (i : ℕ), i + 1 < MACH_TABLE.length →
      MACH_TABLE.getD i 0 < m → m ≤ MACH_TABLE.getD (i + 1) 0 → m < 3 →
      interpolate_cd_g7 m =
        CD_TABLE.getD i 0 +
          (m - MACH_TABLE.getD i 0) /
            (MACH_TABLE.getD (i + 1) 0 - MACH_TABLE.getD i 0) *
            (CD_TABLE.getD (i + 1) 0 - CD_TABLE.getD i 0)) ∧
    (∀ i : ℕ, i + 1 < MACH_TABLE.length → ∀ m1 m2 : ℚ,
      MACH_TABLE.getD i 0 ≤ m1 → m1 ≤ m2 → m2 ≤ MACH_TABLE.getD (i + 1) 0 →
      (CD_TABLE.getD i 0 ≤ CD_TABLE.getD (i + 1) 0 →
        interpolate_cd_g7 m1 ≤ interpolate_cd_g7 m2) ∧
      (CD_TABLE.getD (i + 1) 0 ≤ CD_TABLE.getD i 0 →
        interpolate_cd_g7 m2 ≤ interpolate_cd_g7 m1)) := by
  refine ⟨fun m hm => interp_cd_of_nonpos hm,
    fun m hm => interp_cd_of_ge_max hm, ?_, ?_⟩
  · intro m i h hlo hhi hm3
    exact interp_cd_bracket (by rw [mach_table_len] at h; omega) hlo hhi hm3
  · intro i h m1 m2 h1 h12 h2
    exact interp_cd_mono (by rw [mach_table_len] at h; omega) h1 h12 h2

/-- Witness for C3 at concrete inputs: constant extrapolation at `-1` and
`4`, and the bracketing interpolation at `0.6` inside `[0.5, 0.7]`. -/
theorem interpolate_cd_g7_spec_witness :
    interpolate_cd_g7 (-1) = 0.1198 ∧ interpolate_cd_g7 4 = 0.1776 ∧
      interpolate_cd_g7 0.6 = 0.11965 := by
  obtain ⟨hA, hB, hC, _⟩ := interpolate_cd_g7_spec
  refine ⟨hA (-1) (by norm_num), hB 4 (by norm_num), ?_⟩
  have h := hC 0.6 1 (by rw [mach_table_len]; omega)
    (by norm_num [MACH_TABLE]) (by norm_num [MACH_TABLE]) (by norm_num)
  rw [h]
  norm_num [MACH_TABLE, CD_TABLE]

/-! ## Claim: G7 BC conversion factor (C7) -/

/-- The code's conversion-factor branch chain equals the claim's piecewise
description. -/
theorem conversion_factor_eq (θ : ℚ) :
    (if θ ≤ 0 then (2.3 : ℚ)
     else if 5 ≤ θ ∧ θ < 7 then 2.1
     else if 7 ≤ θ ∧ θ ≤ 9 then 2.0
     else if 9 < θ ∧ θ ≤ 11 then 1.95
     else if θ < 5 then 2.3 - θ / 5 * (2.3 - 2.1)
     else 1.95 - (θ - 11) * 0.01) = conversionFactorSpec θ := by
  unfold conversionFactorSpec
  rcases le_or_lt θ 0 with h0 | h0
  · rw [if_pos h0, if_pos h0]
  · rcases lt_or_le θ 5 with h5 | h5
    · rw [if_neg (by linarith), if_neg (by rintro ⟨ha, hb⟩; linarith),
        if_neg (by rintro ⟨ha, hb⟩; linarith), if_neg (by rintro ⟨ha, hb⟩; linarith),
        if_pos h5, if_neg (by linarith), if_pos h5]
    · rcases lt_or_le θ 7 with h7 | h7
      · rw [if_neg (by linarith), if_pos ⟨h5, h7⟩, if_neg (by linarith),
          if_neg (by linarith), if_pos h7]
      · rcases le_or_lt θ 9 with h9 | h9
        · rw [if_neg (by linarith), if_neg (by rintro ⟨ha, hb⟩; linarith),
            if_pos ⟨h7, h9⟩, if_neg (by linarith), if_neg (by linarith),
            if_neg (by linarith), if_pos h9]
        · rcases le_or_lt θ 11 with h11 | h11
          · rw [if_neg (by linarith), if_neg (by rintro ⟨ha, hb⟩; linarith),
              if_neg (by rintro ⟨ha, hb⟩; linarith), if_pos ⟨h9, h11⟩,
              if_neg (by linarith), if_neg (by linarith), if_neg (by linarith),
              if_neg (by linarith), if_pos h11]
          · rw [if_neg (by linarith), if_neg (by rintro ⟨ha, hb⟩; linarith),
              if_neg (by rintro ⟨ha, hb⟩; linarith),
              if_neg (by rintro ⟨ha, hb⟩; linarith), if_neg (by linarith),
              if_neg (by linarith), if_neg (by linarith), if_neg (by linarith),
              if_neg (by linarith), if_neg (by linarith)]

/-- **C7.** `calculate_g7_bc_from_g1` returns the G1 BC divided by the
angle-determined conversion factor exactly as the claim tabulates it: 2.3
for angle ≤ 0, linear interpolation between 2.3 and 2.1 on (0°,5°), 2.1 on
[5°,7°), 2.0 on [7°,9°], 1.95 on (9°,11°], and `1.95 − 0.01·(θ − 11)`
above 11°. -/
theorem calculate_g7_bc_from_g1_spec (bc_g1 θ : ℚ) :
    calculate_g7_bc_from_g1 bc_g1 θ = bc_g1 / conversionFactorSpec θ := by
  simp only [calculate_g7_bc_from_g1]
  rw [conversion_factor_eq]

/-! ## Claim: sectional density scaling (C8) -/

/-- **C8.** Sectional density is invariant under caliber scaling
`(d, m) ↦ (k·d, k²·m)` for positive inputs; in particular the 7 mm / 140 gr
value is unchanged by every such rescaling; and non-positive diameter or
mass yields 0. -/
theorem calculate_sectional_density_spec :
    (∀ d m k : ℚ, 0 < d → 0 < m → 0 < k →
      calculate_sectional_density (k * d) (k ^ 2 * m) =
        calculate_sectional_density d m) ∧
    (∀ k : ℚ, 0 < k →
      calculate_sectional_density (k * 7) (k ^ 2 * 140) =
        calculate_sectional_density 7 140) ∧
    (∀ d m : ℚ, d ≤ 0 ∨ m ≤ 0 → calculate_sectional_density d m = 0) := by
  have main : ∀ d m k : ℚ, 0 < d → 0 < m → 0 < k →
      calculate_sectional_density (k * d) (k ^ 2 * m) =
        calculate_sectional_density d m := by
    intro d m k hd hm hk
    unfold calculate_sectional_density
    rw [if_neg (by push_neg; constructor <;> positivity),
      if_neg (by push_neg; exact ⟨hd, hm⟩)]
    have hk' : k ≠ 0 := ne_of_gt hk
    have hd' : d ≠ 0 := ne_of_gt hd
    field_simp
    ring
  exact ⟨main,
    fun k hk => main 7 140 k (by norm_num) (by norm_num) hk,
    fun d m h => by unfold calculate_sectional_density; rw [if_pos h]⟩

/-- Witness for C8: scaling by `k = 2` at 7 mm / 140 gr, and the zero
result at a non-positive diameter. -/
theorem calculate_sectional_density_spec_witness :
    calculate_sectional_density (2 * 7) (2 ^ 2 * 140) =
        calculate_sectional_density 7 140 ∧
      calculate_sectional_density (-1) 5 = 0 :=
  ⟨calculate_sectional_density_spec.2.1 2 (by norm_num),
    calculate_sectional_density_spec.2.2 (-1) 5 (Or.inl (by norm_num))⟩

/-! ## Claims: non-positive-input guards (C4) and Miller threshold (C6) -/

/-- **C4 counterexample.** The claim asserts that a non-positive *mass*
(with every choice of the other inputs) makes
`calculate_recommended_twist_rate` return `(0.0, "N/A")`.  But the source
only guards diameter and length: at diameter 25.4 mm, length 25.4 mm,
weight −10 gr and no density, the Greenhill branch runs and returns the
twist `(150.0, "1:150")`, not the `N/A` sentinel. -/
theorem twist_rate_nonpos_mass_counterexample :
    (-10 : ℚ) ≤ 0 ∧
    calculate_recommended_twist_rate ops0 25.4 25.4 (-10) 853 none none =
      some (150, TwistStr.oneIn 150) ∧
    ¬ calculate_recommended_twist_rate ops0 25.4 25.4 (-10) 853 none none =
      some (0, TwistStr.na) := by
  refine ⟨by norm_num, ?_, ?_⟩
  · norm_num [calculate_recommended_twist_rate, mathSqrt, pyRound, ops0]
  · norm_num [calculate_recommended_twist_rate, mathSqrt, pyRound, ops0]

/-- **C4 amended.** `calculate_stability_factor_miller` returns the defined
sentinel `(0.0, 1.5)` whenever any of its four guarded inputs is
non-positive (for every other input, without raising), and
`calculate_recommended_twist_rate` returns `(0.0, "N/A")` whenever diameter
or length is non-positive; a non-positive mass alone does not trigger the
twist function's sentinel. -/
theorem nonpos_guard_results (ops : RealOps) (d l w t v tc p : ℚ)
    (ed md : Option ℚ) (h : d ≤ 0 ∨ l ≤ 0 ∨ w ≤ 0 ∨ t ≤ 0) :
    calculate_stability_factor_miller ops d l w t v tc p ed md = some (0, 1.5) ∧
    ((d ≤ 0 ∨ l ≤ 0) →
      calculate_recommended_twist_rate ops d l w v ed md = some (0, TwistStr.na)) := by
  constructor
  · rw [calculate_stability_factor_miller.eq_def, if_pos h]
  · intro h2
    rw [calculate_recommended_twist_rate.eq_def, if_pos h2]

/-- Witness for the amended C4 at zero diameter. -/
theorem nonpos_guard_results_witness :
    calculate_stability_factor_miller ops0 0 30 140 8 853 15 1013.25 none none =
        some (0, 1.5) ∧
      calculate_recommended_twist_rate ops0 0 30 140 853 none none =
        some (0, TwistStr.na) := by
  have h := nonpos_guard_results ops0 0 30 140 8 853 15 1013.25 none none
    (Or.inl le_rfl)
  exact ⟨h.1, h.2 (Or.inl le_rfl)⟩

/-- **C6 counterexample.** The claim asserts the returned threshold is 1.8
for a supplied density of 8.9 g/cm³ *regardless of the other inputs*; but
with a non-positive diameter the guard path returns `(0.0, 1.5)`. -/
theorem miller_threshold_counterexample :
    calculate_stability_factor_miller ops0 0 10 10 8 853 15 1013.25 none
        (some 8.9) = some (0, 1.5) ∧ (1.5 : ℚ) ≠ 1.8 := by
  constructor
  · rw [calculate_stability_factor_miller.eq_def, if_pos (Or.inl le_rfl)]
  · norm_num

/-- **C6 amended.** Whenever `calculate_stability_factor_miller` returns a
pair, its threshold component is 1.8 exactly when the four guarded inputs
are all positive and the supplied material density lies in [7.0, 9.5]
g/cm³; in every other case — including the degenerate guard path and every
density outside the band (e.g. 11.3) — it is 1.5. -/
theorem miller_threshold_spec (ops : RealOps) (d l w t v tc p : ℚ)
    (ed md : Option ℚ) (s thr : ℚ)
    (hret : calculate_stability_factor_miller ops d l w t v tc p ed md =
      some (s, thr)) :
    thr = if (0 < d ∧ 0 < l ∧ 0 < w ∧ 0 < t) ∧
        (∃ dens, md = some dens ∧ 7 ≤ dens ∧ dens ≤ 9.5) then 1.8 else 1.5 := by
  by_cases hg : d ≤ 0 ∨ l ≤ 0 ∨ w ≤ 0 ∨ t ≤ 0
  · rw [calculate_stability_factor_miller.eq_def, if_pos hg] at hret
    have h15 : thr = 1.5 := by
      have := (Prod.mk.injEq _ _ _ _).mp (Option.some.inj hret)
      exact this.2.symm
    rw [h15, if_neg]
    rintro ⟨⟨h1, h2, h3, h4⟩, -⟩
    rcases hg with hg | hg | hg | hg <;> linarith
  · rw [calculate_stability_factor_miller.eq_def, if_neg hg] at hret
    push_neg at hg
    obtain ⟨hd, hl, hw, ht⟩ := hg
    simp only [Option.bind_eq_some, Option.map_eq_some'] at hret
    obtain ⟨a, -, b, -, heq⟩ := hret
    have h2 := ((Prod.mk.injEq _ _ _ _).mp heq).2
    rw [← h2]
    cases md with
    | none =>
        have hC : ¬ ((0 < d ∧ 0 < l ∧ 0 < w ∧ 0 < t) ∧
            ∃ dens, (none : Option ℚ) = some dens ∧ 7 ≤ dens ∧ dens ≤ 9.5) := by
          rintro ⟨-, dens, hdens, -⟩
          exact Option.noConfusion hdens
        simp [hC]
    | some dens =>
        by_cases hband : 7 ≤ dens ∧ dens ≤ 9.5
        · have hC : (0 < d ∧ 0 < l ∧ 0 < w ∧ 0 < t) ∧
              ∃ dens', (some dens : Option ℚ) = some dens' ∧
                7 ≤ dens' ∧ dens' ≤ 9.5 :=
            ⟨⟨hd, hl, hw, ht⟩, ⟨dens, rfl, hband⟩⟩
          simp [hC, hband.1, hband.2]
        · have hC : ¬ ((0 < d ∧ 0 < l ∧ 0 < w ∧ 0 < t) ∧
              ∃ dens', (some dens : Option ℚ) = some dens' ∧
                7 ≤ dens' ∧ dens' ≤ 9.5) := by
            rintro ⟨-, dens', hdens', hband'⟩
            rw [← Option.some.inj hdens'] at hband'
            exact hband hband'
          simp [hC, hband]

/-- Witness for the amended C6: the guard path at zero diameter with
monolithic density 8.9 yields threshold 1.5 (matching the `if`). -/
theorem miller_threshold_spec_witness :
    (1.5 : ℚ) = if ((0:ℚ) < 0 ∧ (0:ℚ) < 10 ∧ (0:ℚ) < 10 ∧ (0:ℚ) < 8) ∧
        (∃ dens, (some (8.9:ℚ) : Option ℚ) = some dens ∧ 7 ≤ dens ∧ dens ≤ 9.5)
      then 1.8 else 1.5 := by
  have h := miller_threshold_spec ops0 0 10 10 8 853 15 1013.25 none
    (some 8.9) 0 1.5
    (by rw [calculate_stability_factor_miller.eq_def, if_pos (Or.inl le_rfl)])
  exact h

/-! ## Claim: dimension-solver validity invariant (C2) -/

/-- The gap-absorbing radius is positive when both diameters are. -/
theorem gap_radius_pos (a : DimArgs) (hgroove : 0 < a.groove_diameter_mm)
    (hland : 0 < a.land_diameter_mm) : 0 < a.gap_radius := by
  rw [DimArgs.gap_radius]
  split_ifs
  · rw [DimArgs.r_land]; linarith
  · rw [DimArgs.r_groove]; linarith

/-- On the success branch the recomputed weight equals the target exactly:
the gap length is defined as the leftover volume divided by `π·r²`, so the
volume check telescopes back to the target-derived total volume. -/
theorem dims_success_calculated (ops : RealOps) (a : DimArgs) (bt r_base : ℚ)
    (hpi : 0 < ops.pi) (hgroove : 0 < a.groove_diameter_mm)
    (hland : 0 < a.land_diameter_mm) (hdens : 0 < a.material_density) :
    (dims_success ops a bt r_base
        ((a.volume_total - a.V_ogive ops -
            ops.pi * bt / 3 *
              (r_base * r_base + r_base * a.r_land + a.r_land * a.r_land) -
            a.V_bands ops) /
          (ops.pi * a.gap_radius * a.gap_radius))).calculated_weight_grains =
      a.target_weight_grains := by
  have hr : 0 < a.gap_radius := gap_radius_pos a hgroove hland
  simp only [dims_success, DimArgs.volume_total, DimArgs.V_ogive, DimArgs.V_bands,
    GRAINS_TO_GRAMS, CM3_TO_MM3]
  field_simp
  ring

/-- Every run of the solver loop ends in the failure record or in a success
record whose gap length is the leftover-volume quotient and satisfies the
convergence condition. -/
theorem dims_loop_cases (ops : RealOps) (a : DimArgs) :
    ∀ (n : ℕ) (bt0 : ℚ) (g c : Option ℚ),
      (∃ bt gfin cfin, dims_loop ops a n bt0 g c = dims_fail a bt gfin cfin) ∨
      (∃ bt r_base,
        dims_loop ops a n bt0 g c =
          dims_success ops a bt r_base
            ((a.volume_total - a.V_ogive ops -
                ops.pi * bt / 3 *
                  (r_base * r_base + r_base * a.r_land + a.r_land * a.r_land) -
                a.V_bands ops) /
              (ops.pi * a.gap_radius * a.gap_radius)) ∧
        a.gap_coverage ≤
          (a.volume_total - a.V_ogive ops -
              ops.pi * bt / 3 *
                (r_base * r_base + r_base * a.r_land + a.r_land * a.r_land) -
              a.V_bands ops) /
            (ops.pi * a.gap_radius * a.gap_radius)) := by
  intro n
  induction n with
  | zero =>
      intro bt0 g c
      exact Or.inl ⟨bt0, _, _, rfl⟩
  | succ m ih =>
      intro bt0 g c
      simp only [dims_loop]
      split_ifs with h1 h2 h3
      · exact ih _ _ _
      · exact ih _ _ _
      · exact Or.inr ⟨bt0, _, rfl, h3⟩
      · exact ih _ _ _

/-- **C2.** Whenever `calculate_bullet_dimensions_from_weight` reports
`is_valid = true` (under the positivity hypotheses that make the Python
computation defined), the returned total length equals
boat-tail + (band coverage + gap length) + ogive length, the convergence
condition `gap_length_needed ≥ gap_coverage` holds, and the recomputed
weight agrees with the target within 1% (in exact arithmetic the error is
0). -/
theorem dims_from_weight_valid_spec (ops : RealOps) (a : DimArgs) (fuel : ℕ)
    (hpi : 0 < ops.pi) (hgroove : 0 < a.groove_diameter_mm)
    (hland : 0 < a.land_diameter_mm) (hdens : 0 < a.material_density)
    (hw : 0 < a.target_weight_grains)
    (hvalid : (calculate_bullet_dimensions_from_weight ops a fuel).is_valid = true) :
    (calculate_bullet_dimensions_from_weight ops a fuel).total_length_mm =
      (calculate_bullet_dimensions_from_weight ops a fuel).boat_tail_length_mm +
        (a.band_coverage +
          (calculate_bullet_dimensions_from_weight ops a fuel).gap_length_needed_mm) +
        (calculate_bullet_dimensions_from_weight ops a fuel).ogive_length_mm ∧
    (calculate_bullet_dimensions_from_weight ops a fuel).gap_coverage_mm ≤
      (calculate_bullet_dimensions_from_weight ops a fuel).gap_length_needed_mm ∧
    (calculate_bullet_dimensions_from_weight ops a fuel).weight_error_percent ≤ 1 := by
  rcases dims_loop_cases ops a fuel (a.groove_diameter_mm * 0.7) none none with
    ⟨bt, gfin, cfin, heq⟩ | ⟨bt, r_base, heq, hconv⟩
  · rw [calculate_bullet_dimensions_from_weight, heq] at hvalid
    simp [dims_fail] at hvalid
  · rw [calculate_bullet_dimensions_from_weight, heq] at hvalid ⊢
    refine ⟨?_, ?_, ?_⟩
    · simp only [dims_success]
    · simpa only [dims_success] using hconv
    · have hcalc := dims_success_calculated ops a bt r_base hpi hgroove hland hdens
      simp only [dims_success] at hcalc ⊢
      rw [hcalc, sub_self, abs_zero, zero_div, zero_mul]
      norm_num

set_option maxHeartbeats 1000000 in
/-- Witness for C2: a concrete converging instance — 1000 gr target at
density 6479891/100000 g/cm³ (so the target volume is exactly 1000 mm³),
10 mm groove and land, no bands, 2-caliber ogive, flat boat-tail angle. -/
theorem dims_from_weight_valid_spec_witness :
    ((calculate_bullet_dimensions_from_weight ops0
        ⟨1000, 10, 10, 6479891/100000, 0, 0, 0, 2, OgiveType.tangent, 0, 0, true⟩
        10).total_length_mm =
      (calculate_bullet_dimensions_from_weight ops0
        ⟨1000, 10, 10, 6479891/100000, 0, 0, 0, 2, OgiveType.tangent, 0, 0, true⟩
        10).boat_tail_length_mm +
        ((⟨1000, 10, 10, 6479891/100000, 0, 0, 0, 2, OgiveType.tangent, 0, 0, true⟩ :
            DimArgs).band_coverage +
          (calculate_bullet_dimensions_from_weight ops0
            ⟨1000, 10, 10, 6479891/100000, 0, 0, 0, 2, OgiveType.tangent, 0, 0, true⟩
            10).gap_length_needed_mm) +
        (calculate_bullet_dimensions_from_weight ops0
          ⟨1000, 10, 10, 6479891/100000, 0, 0, 0, 2, OgiveType.tangent, 0, 0, true⟩
          10).ogive_length_mm) ∧
    ((calculate_bullet_dimensions_from_weight ops0
        ⟨1000, 10, 10, 6479891/100000, 0, 0, 0, 2, OgiveType.tangent, 0, 0, true⟩
        10).gap_coverage_mm ≤
      (calculate_bullet_dimensions_from_weight ops0
        ⟨1000, 10, 10, 6479891/100000, 0, 0, 0, 2, OgiveType.tangent, 0, 0, true⟩
        10).gap_length_needed_mm) ∧
    ((calculate_bullet_dimensions_from_weight ops0
        ⟨1000, 10, 10, 6479891/100000, 0, 0, 0, 2, OgiveType.tangent, 0, 0, true⟩
        10).weight_error_percent ≤ 1) := by
  refine dims_from_weight_valid_spec ops0 _ 10 (by norm_num [ops0]) (by norm_num)
    (by norm_num) (by norm_num) (by norm_num) ?_
  rw [calculate_bullet_dimensions_from_weight.eq_def]
  show (dims_loop ops0 _ (9 + 1) _ none none).is_valid = true
  rw [dims_loop]
  dsimp only
  split_ifs with h1 h2 h3
  · exfalso
    norm_num [DimArgs.volume_total, DimArgs.V_ogive, DimArgs.r_land,
      DimArgs.r_groove, DimArgs.ogive_length, GRAINS_TO_GRAMS, CM3_TO_MM3,
      ops0, radians] at h1
  · exfalso
    norm_num [DimArgs.volume_total, DimArgs.V_ogive, DimArgs.V_bands,
      DimArgs.r_land, DimArgs.r_groove, DimArgs.ogive_length,
      GRAINS_TO_GRAMS, CM3_TO_MM3, ops0, radians] at h2
  · rfl
  · exfalso
    norm_num [DimArgs.volume_total, DimArgs.V_ogive, DimArgs.V_bands,
      DimArgs.r_land, DimArgs.r_groove, DimArgs.ogive_length,
      DimArgs.gap_coverage, DimArgs.gap_radius, GRAINS_TO_GRAMS, CM3_TO_MM3,
      ops0, radians] at h3

/-! ## Profile-generator lemmas (C1, C10) -/

/-- Gluing lemma for the sortedness relation `zle`: two pairwise-sorted
segments concatenate when a midpoint separates their axial positions. -/
theorem pairwise_glue {l1 l2 : List (ℚ × ℚ)} {m : ℚ}
    (h1 : l1.Pairwise zle) (h2 : l2.Pairwise zle)
    (b1 : ∀ p ∈ l1, p.1 ≤ m) (b2 : ∀ p ∈ l2, m ≤ p.1) :
    (l1 ++ l2).Pairwise zle := by
  rw [List.pairwise_append]
  exact ⟨h1, h2, fun x hx y hy => le_trans (b1 x hx) (b2 y hy)⟩

/-- Membership in a conditional singleton forces the element and the
condition. -/
theorem mem_if_singleton {cnd : Prop} [Decidable cnd] {q : ℚ × ℚ} {p : ℚ × ℚ}
    (hp : p ∈ (if cnd then [q] else [])) : p = q ∧ cnd := by
  split_ifs at hp with h
  · simp only [List.mem_singleton] at hp
    exact ⟨hp, h⟩
  · simp at hp

/-- A conditional singleton is pairwise sorted. -/
theorem pairwise_if_singleton {cnd : Prop} [Decidable cnd] {q : ℚ × ℚ} :
    (if cnd then [q] else []).Pairwise zle := by
  split_ifs <;> simp

/-- Invariant of the land-riding band loop: for band length ≥ 0.2 and
non-negative spacing, the emitted points are sorted by axial position and
lie between the entry position and the body end. -/
theorem bandLoopLand_spec (br rg bl sp be : ℚ) (hbl : 0.2 ≤ bl) (hsp : 0 ≤ sp) :
    ∀ (n i : ℕ) (c : ℚ), c ≤ be →
      (bandLoopLand br rg bl sp be n i c).Pairwise zle ∧
      ∀ p ∈ bandLoopLand br rg bl sp be n i c, c ≤ p.1 ∧ p.1 ≤ be := by
  intro n
  induction n with
  | zero =>
      intro i c hc
      rw [bandLoopLand]
      refine ⟨pairwise_if_singleton, ?_⟩
      intro p hp
      obtain ⟨rfl, -⟩ := mem_if_singleton hp
      exact ⟨hc, le_rfl⟩
  | succ m ih =>
      intro i c hc
      rw [bandLoopLand]
      dsimp only
      by_cases hbrk : be ≤ (if i = 0 then c else c + sp)
      · rw [if_pos hbrk]
        refine ⟨pairwise_if_singleton, ?_⟩
        intro p hp
        obtain ⟨rfl, -⟩ := mem_if_singleton hp
        exact ⟨hc, le_rfl⟩
      · rw [if_neg hbrk]
        push_neg at hbrk
        have hcbs : c ≤ (if i = 0 then c else c + sp) := by
          split_ifs
          · exact le_rfl
          · linarith
        generalize hBS : (if i = 0 then c else c + sp) = bs at hbrk hcbs
        have hminR : min (bs + bl) be ≤ be := min_le_right _ _
        have hminL : min (bs + bl) be ≤ bs + bl := min_le_left _ _
        have hbend_ge_c : c ≤ min (bs + bl) be := le_min (by linarith) hc
        have hbend_ge_bs : bs ≤ min (bs + bl) be := le_min (by linarith) (le_of_lt hbrk)
        obtain ⟨tailP, tailB⟩ := ih (i + 1) (min (bs + bl) be) hminR
        -- bounds for the four conditional points of this iteration
        have hL : ∀ p ∈ ((if c + 0.1 < bs then [(bs, br)] else []) ++
              (if bs + 0.2 < be then [(bs + 0.2, rg)] else []) ++
              (if bs + 0.2 < min (bs + bl) be - 0.2 then
                [(min (bs + bl) be - 0.2, rg)] else []) ++
              (if min (bs + bl) be < be then [(min (bs + bl) be, br)] else [])),
            bs ≤ p.1 ∧ p.1 ≤ min (bs + bl) be := by
          intro p hp
          simp only [List.mem_append] at hp
          rcases hp with ((hp | hp) | hp) | hp
          · obtain ⟨rfl, -⟩ := mem_if_singleton hp
            exact ⟨le_rfl, hbend_ge_bs⟩
          · obtain ⟨rfl, hg⟩ := mem_if_singleton hp
            exact ⟨by norm_num, le_min (by linarith) (le_of_lt hg)⟩
          · obtain ⟨rfl, hg⟩ := mem_if_singleton hp
            exact ⟨by linarith, by linarith⟩
          · obtain ⟨rfl, -⟩ := mem_if_singleton hp
            exact ⟨hbend_ge_bs, le_rfl⟩
        have hLpair : ((if c + 0.1 < bs then [(bs, br)] else []) ++
              (if bs + 0.2 < be then [(bs + 0.2, rg)] else []) ++
              (if bs + 0.2 < min (bs + bl) be - 0.2 then
                [(min (bs + bl) be - 0.2, rg)] else []) ++
              (if min (bs + bl) be < be then [(min (bs + bl) be, br)] else [])).Pairwise
            zle := by
          refine pairwise_glue (m := min (bs + bl) be)
            (pairwise_glue (m := bs + 0.2)
              (pairwise_glue (m := bs) pairwise_if_singleton pairwise_if_singleton
                ?_ ?_)
              pairwise_if_singleton ?_ ?_)
            pairwise_if_singleton ?_ ?_
          · intro p hp
            obtain ⟨rfl, -⟩ := mem_if_singleton hp
            exact le_rfl
          · intro p hp
            obtain ⟨rfl, -⟩ := mem_if_singleton hp
            norm_num
          · intro p hp
            simp only [List.mem_append] at hp
            rcases hp with hp | hp <;> obtain ⟨rfl, -⟩ := mem_if_singleton hp
            · norm_num
            · exact le_rfl
          · intro p hp
            obtain ⟨rfl, hg⟩ := mem_if_singleton hp
            exact le_of_lt hg
          · intro p hp
            simp only [List.mem_append] at hp
            rcases hp with (hp | hp) | hp
            · obtain ⟨rfl, -⟩ := mem_if_singleton hp
              exact hbend_ge_bs
            · obtain ⟨rfl, hg⟩ := mem_if_singleton hp
              exact le_min (by linarith) (le_of_lt hg)
            · obtain ⟨rfl, hg⟩ := mem_if_singleton hp
              linarith
          · intro p hp
            obtain ⟨rfl, -⟩ := mem_if_singleton hp
            exact le_rfl
        constructor
        · refine pairwise_glue (m := min (bs + bl) be) hLpair tailP ?_ ?_
          · intro p hp
            exact (hL p hp).2
          · intro p hp
            exact (tailB p hp).1
        · intro p hp
          rw [List.mem_append] at hp
          rcases hp with hp | hp
          · obtain ⟨h1, h2⟩ := hL p hp
            exact ⟨le_trans hcbs h1, le_trans h2 hminR⟩
          · obtain ⟨h1, h2⟩ := tailB p hp
            exact ⟨le_trans hbend_ge_c h1, h2⟩

/-- The land-riding band loop emits only the body radius or the groove
radius (no hypotheses needed). -/
theorem bandLoopLand_radii (br rg bl sp be : ℚ) :
    ∀ (n i : ℕ) (c : ℚ), ∀ p ∈ bandLoopLand br rg bl sp be n i c,
      p.2 = br ∨ p.2 = rg := by
  intro n
  induction n with
  | zero =>
      intro i c p hp
      rw [bandLoopLand] at hp
      obtain ⟨rfl, -⟩ := mem_if_singleton hp
      exact Or.inl rfl
  | succ m ih =>
      intro i c p hp
      rw [bandLoopLand] at hp
      dsimp only at hp
      by_cases hbrk : be ≤ (if i = 0 then c else c + sp)
      · rw [if_pos hbrk] at hp
        obtain ⟨rfl, -⟩ := mem_if_singleton hp
        exact Or.inl rfl
      · rw [if_neg hbrk] at hp
        simp only [List.mem_append] at hp
        rcases hp with (((hp | hp) | hp) | hp) | hp
        · obtain ⟨rfl, -⟩ := mem_if_singleton hp
          exact Or.inl rfl
        · obtain ⟨rfl, -⟩ := mem_if_singleton hp
          exact Or.inr rfl
        · obtain ⟨rfl, -⟩ := mem_if_singleton hp
          exact Or.inr rfl
        · obtain ⟨rfl, -⟩ := mem_if_singleton hp
          exact Or.inl rfl
        · exact ih _ _ p hp

/-- Invariant of the groove-riding band loop, as for the land-riding one. -/
theorem bandLoopGroove_spec (rg bl sp be : ℚ) (hbl : 0.2 ≤ bl) (hsp : 0 ≤ sp) :
    ∀ (n i : ℕ) (c : ℚ), c ≤ be →
      (bandLoopGroove rg bl sp be n i c).Pairwise zle ∧
      ∀ p ∈ bandLoopGroove rg bl sp be n i c, c ≤ p.1 ∧ p.1 ≤ be := by
  intro n
  induction n with
  | zero =>
      intro i c hc
      rw [bandLoopGroove]
      refine ⟨pairwise_if_singleton, ?_⟩
      intro p hp
      obtain ⟨rfl, -⟩ := mem_if_singleton hp
      exact ⟨hc, le_rfl⟩
  | succ m ih =>
      intro i c hc
      rw [bandLoopGroove]
      dsimp only
      by_cases hbrk : be ≤ (if i = 0 then c else c + sp)
      · rw [if_pos hbrk]
        refine ⟨pairwise_if_singleton, ?_⟩
        intro p hp
        obtain ⟨rfl, -⟩ := mem_if_singleton hp
        exact ⟨hc, le_rfl⟩
      · rw [if_neg hbrk]
        push_neg at hbrk
        have hcbs : c ≤ (if i = 0 then c else c + sp) := by
          split_ifs
          · exact le_rfl
          · linarith
        generalize hBS : (if i = 0 then c else c + sp) = bs at hbrk hcbs
        have hminR : min (bs + bl) be ≤ be := min_le_right _ _
        have hminL : min (bs + bl) be ≤ bs + bl := min_le_left _ _
        have hbend_ge_c : c ≤ min (bs + bl) be := le_min (by linarith) hc
        have hbend_ge_bs : bs ≤ min (bs + bl) be := le_min (by linarith) (le_of_lt hbrk)
        obtain ⟨tailP, tailB⟩ := ih (i + 1) (min (bs + bl) be) hminR
        have hL : ∀ p ∈ ((if bs + 0.2 < be then [(bs + 0.2, rg * 1.01)] else []) ++
              (if bs + 0.2 < min (bs + bl) be - 0.2 then
                [(min (bs + bl) be - 0.2, rg * 1.01)] else []) ++
              (if min (bs + bl) be < be then [(min (bs + bl) be, rg)] else [])),
            bs ≤ p.1 ∧ p.1 ≤ min (bs + bl) be := by
          intro p hp
          simp only [List.mem_append] at hp
          rcases hp with (hp | hp) | hp
          · obtain ⟨rfl, hg⟩ := mem_if_singleton hp
            exact ⟨by norm_num, le_min (by linarith) (le_of_lt hg)⟩
          · obtain ⟨rfl, hg⟩ := mem_if_singleton hp
            exact ⟨by linarith, by linarith⟩
          · obtain ⟨rfl, -⟩ := mem_if_singleton hp
            exact ⟨hbend_ge_bs, le_rfl⟩
        have hLpair : ((if bs + 0.2 < be then [(bs + 0.2, rg * 1.01)] else []) ++
              (if bs + 0.2 < min (bs + bl) be - 0.2 then
                [(min (bs + bl) be - 0.2, rg * 1.01)] else []) ++
              (if min (bs + bl) be < be then [(min (bs + bl) be, rg)] else [])).Pairwise
            zle := by
          refine pairwise_glue (m := min (bs + bl) be)
            (pairwise_glue (m := bs + 0.2) pairwise_if_singleton
              pairwise_if_singleton ?_ ?_)
            pairwise_if_singleton ?_ ?_
          · intro p hp
            obtain ⟨rfl, -⟩ := mem_if_singleton hp
            exact le_rfl
          · intro p hp
            obtain ⟨rfl, hg⟩ := mem_if_singleton hp
            exact le_of_lt hg
          · intro p hp
            simp only [List.mem_append] at hp
            rcases hp with hp | hp
            · obtain ⟨rfl, hg⟩ := mem_if_singleton hp
              exact le_min (by linarith) (le_of_lt hg)
            · obtain ⟨rfl, hg⟩ := mem_if_singleton hp
              linarith
          · intro p hp
            obtain ⟨rfl, -⟩ := mem_if_singleton hp
            exact le_rfl
        constructor
        · refine pairwise_glue (m := min (bs + bl) be) hLpair tailP ?_ ?_
          · intro p hp
            exact (hL p hp).2
          · intro p hp
            exact (tailB p hp).1
        · intro p hp
          rw [List.mem_append] at hp
          rcases hp with hp | hp
          · obtain ⟨h1, h2⟩ := hL p hp
            exact ⟨le_trans hcbs h1, le_trans h2 hminR⟩
          · obtain ⟨h1, h2⟩ := tailB p hp
            exact ⟨le_trans hbend_ge_c h1, h2⟩

/-- The ogive parameter list is sorted and contained in `[0, 1]`. -/
theorem tValues_spec (n : ℕ) (hn : 0 < n) :
    (tValues n).Pairwise (· ≤ ·) ∧ ∀ t ∈ tValues n, 0 ≤ t ∧ t ≤ 1 := by
  have hn' : (0 : ℚ) < n := by exact_mod_cast hn
  have hmem : ∀ t ∈ (List.range (n + 1)).map (fun i : ℕ => (i : ℚ) / (n : ℚ)),
      0 ≤ t ∧ t ≤ 1 := by
    intro t ht
    rw [List.mem_map] at ht
    obtain ⟨i, hi, rfl⟩ := ht
    rw [List.mem_range] at hi
    refine ⟨by positivity, ?_⟩
    rw [div_le_one hn']
    exact_mod_cast Nat.lt_succ_iff.mp hi
  have hpair0 : ((List.range (n + 1)).map (fun i : ℕ => (i : ℚ) / (n : ℚ))).Pairwise
      (· ≤ ·) := by
    rw [List.pairwise_map]
    refine (List.pairwise_lt_range (n + 1)).imp ?_
    intro a b hab
    have hab' : (a : ℚ) ≤ b := by exact_mod_cast hab.le
    exact (div_le_div_iff_of_pos_right hn').mpr hab'
  rw [tValues]
  split_ifs with hhalf
  · exact ⟨hpair0, hmem⟩
  · constructor
    · exact List.sorted_insertionSort _ _
    · intro t ht
      have ht' := (List.mem_insertionSort (· ≤ ·)).mp ht
      rcases List.mem_or_eq_of_mem_set ht' with h | h
      · exact hmem t h
      · subst h
        norm_num

/-- `z_pos` is non-negative (positive boat-tail length in the boat-tail
branch, zero otherwise). -/
theorem z_pos_nonneg (g : ProfileArgs) : 0 ≤ g.z_pos := by
  rw [ProfileArgs.z_pos]
  split_ifs with h
  · exact le_of_lt h.2
  · exact le_rfl

/-- `body_length` is always positive thanks to the 0.1 mm floor. -/
theorem body_length_pos (g : ProfileArgs) : 0 < g.body_length := by
  rw [ProfileArgs.body_length]
  split_ifs with h
  · exact lt_max_of_lt_left (by norm_num)
  · linarith [not_le.mp h]

/-- `z_pos < body_end_z`. -/
theorem z_pos_lt_body_end (g : ProfileArgs) : g.z_pos < g.body_end_z := by
  have := body_length_pos g
  rw [ProfileArgs.body_end_z]
  linarith

/-- Under the fit hypothesis (boat-tail + ogive shorter than the bullet),
the 0.1 mm floor is inactive: `body_end_z = length − ogive_length`. -/
theorem body_end_eq (g : ProfileArgs) (hbt0 : 0 ≤ g.boat_tail_length_mm)
    (hfit : g.boat_tail_length_mm + g.ogive_length < g.length_mm) :
    g.body_end_z = g.length_mm - g.ogive_length := by
  have hz : g.z_pos ≤ g.boat_tail_length_mm := by
    rw [ProfileArgs.z_pos]
    split_ifs
    · exact le_rfl
    · exact hbt0
  rw [ProfileArgs.body_end_z, ProfileArgs.body_length]
  split_ifs with h
  · linarith
  · ring

/-- Under the fit hypothesis the ogive section has non-negative length. -/
theorem actual_ogive_nonneg (g : ProfileArgs) (hbt0 : 0 ≤ g.boat_tail_length_mm)
    (hoc : 0 ≤ g.ogive_calibers) (hd : 0 < g.diameter_mm)
    (hfit : g.boat_tail_length_mm + g.ogive_length < g.length_mm) :
    0 ≤ g.actual_ogive_length := by
  rw [ProfileArgs.actual_ogive_length, body_end_eq g hbt0 hfit]
  have : 0 ≤ g.ogive_length := by
    rw [ProfileArgs.ogive_length]
    positivity
  linarith

/-- `body_end_z ≤ length` under the fit hypothesis. -/
theorem body_end_le_length (g : ProfileArgs) (hbt0 : 0 ≤ g.boat_tail_length_mm)
    (hoc : 0 ≤ g.ogive_calibers) (hd : 0 < g.diameter_mm)
    (hfit : g.boat_tail_length_mm + g.ogive_length < g.length_mm) :
    g.body_end_z ≤ g.length_mm := by
  have := actual_ogive_nonneg g hbt0 hoc hd hfit
  rw [ProfileArgs.actual_ogive_length] at this
  linarith

/-- The effective band spacing is non-negative when the input spacing is. -/
theorem spacing_nonneg (g : ProfileArgs) (hsp : 0 ≤ g.band_spacing_mm) :
    0 ≤ g.spacing := by
  rw [ProfileArgs.spacing]
  split_ifs
  · exact le_max_of_le_left (by norm_num)
  · exact hsp

/-- Base-section points: sorted, between 0 and `z_pos`. -/
theorem basePts_spec (g : ProfileArgs) (ops : RealOps) :
    ((g.basePts ops).Pairwise zle) ∧
    ∀ p ∈ g.basePts ops, 0 ≤ p.1 ∧ p.1 ≤ g.z_pos := by
  rw [ProfileArgs.basePts, ProfileArgs.z_pos]
  split_ifs with h
  · constructor
    · refine List.pairwise_cons.mpr ⟨?_, List.pairwise_singleton _ _⟩
      intro p hp
      rw [List.mem_singleton] at hp
      subst hp
      exact le_of_lt h.2
    · intro p hp
      rcases List.mem_pair.mp hp with rfl | rfl
      · exact ⟨le_rfl, le_of_lt h.2⟩
      · exact ⟨le_of_lt h.2, le_rfl⟩
  · constructor
    · exact List.pairwise_singleton _ _
    · intro p hp
      rw [List.mem_singleton] at hp
      subst hp
      exact ⟨le_rfl, le_rfl⟩

/-- Body-section points: sorted, between `z_pos` and `body_end_z`,
provided the band geometry is sane when bands are requested. -/
theorem bodyPts_spec (g : ProfileArgs) (ops : RealOps)
    (hband : 0 < g.num_bands → 0.2 ≤ g.band_length_mm ∧ 0 ≤ g.band_spacing_mm) :
    ((g.bodyPts ops).Pairwise zle) ∧
    ∀ p ∈ g.bodyPts ops, g.z_pos ≤ p.1 ∧ p.1 ≤ g.body_end_z := by
  have hzb : g.z_pos ≤ g.body_end_z := le_of_lt (z_pos_lt_body_end g)
  rw [ProfileArgs.bodyPts]
  by_cases hlr : g.land_riding = true
  · rw [if_pos hlr]
    by_cases hb : 0 < g.num_bands
    · -- land riding, with bands
      rw [if_pos hb]
      obtain ⟨hbl, hsp⟩ := hband hb
      obtain ⟨loopP, loopB⟩ :=
        bandLoopLand_spec g.body_radius g.radius_groove g.band_length_mm g.spacing
          g.body_end_z hbl (spacing_nonneg g hsp) g.num_bands 0 g.z_pos hzb
      constructor
      · rw [List.pairwise_cons]
        exact ⟨fun p hp => (loopB p hp).1, loopP⟩
      · intro p hp
        rcases List.mem_cons.mp hp with rfl | hp
        · exact ⟨le_rfl, hzb⟩
        · exact loopB p hp
    · -- land riding, no bands
      rw [if_neg hb]
      constructor
      · refine List.pairwise_cons.mpr ⟨?_, List.pairwise_singleton _ _⟩
        intro p hp
        rw [List.mem_singleton] at hp
        subst hp
        exact hzb
      · intro p hp
        rcases List.mem_pair.mp hp with rfl | rfl
        · exact ⟨le_rfl, hzb⟩
        · exact ⟨hzb, le_rfl⟩
  · rw [if_neg hlr]
    by_cases hb : 0 < g.num_bands
    · -- groove riding, with bands
      rw [if_pos hb]
      obtain ⟨hbl, hsp⟩ := hband hb
      exact bandLoopGroove_spec g.radius_groove g.band_length_mm g.spacing
        g.body_end_z hbl (spacing_nonneg g hsp) g.num_bands 0 g.z_pos hzb
    · -- groove riding, no bands
      rw [if_neg hb]
      by_cases hc : ((g.basePts ops).getLastD (0, 0)).1 = g.z_pos
      · rw [if_pos hc, List.nil_append]
        constructor
        · exact List.pairwise_singleton _ _
        · intro p hp
          rw [List.mem_singleton] at hp
          subst hp
          exact ⟨hzb, le_rfl⟩
      · rw [if_neg hc, List.singleton_append]
        constructor
        · refine List.pairwise_cons.mpr ⟨?_, List.pairwise_singleton _ _⟩
          intro p hp
          rw [List.mem_singleton] at hp
          subst hp
          exact hzb
        · intro p hp
          rcases List.mem_pair.mp hp with rfl | rfl
          · exact ⟨le_rfl, hzb⟩
          · exact ⟨hzb, le_rfl⟩

/-- Ogive points: sorted, between `body_end_z` and `length`, provided the
ogive section has non-negative length. -/
theorem ogivePts_spec (g : ProfileArgs) (ops : RealOps)
    (hog : 0 ≤ g.actual_ogive_length) :
    ((g.ogivePts ops).Pairwise zle) ∧
    ∀ p ∈ g.ogivePts ops, g.body_end_z ≤ p.1 ∧ p.1 ≤ g.length_mm := by
  have hn : 0 < g.num_ogive_points :=
    lt_of_lt_of_le (by norm_num) (le_max_left 20 _)
  obtain ⟨tsP, tsB⟩ := tValues_spec g.num_ogive_points hn
  rw [ProfileArgs.ogivePts]
  constructor
  · rw [List.pairwise_map]
    refine tsP.imp ?_
    intro a b hab
    show g.body_end_z + a * g.actual_ogive_length ≤
      g.body_end_z + b * g.actual_ogive_length
    nlinarith
  · intro p hp
    simp only [List.mem_map] at hp
    obtain ⟨t, ht, rfl⟩ := hp
    obtain ⟨ht0, ht1⟩ := tsB t ht
    constructor
    · have : 0 ≤ t * g.actual_ogive_length := mul_nonneg ht0 hog
      simp only
      linarith
    · have h1 : t * g.actual_ogive_length ≤ g.actual_ogive_length := by nlinarith
      have h2 : g.body_end_z + g.actual_ogive_length = g.length_mm := by
        rw [ProfileArgs.actual_ogive_length]
        ring
      simp only
      linarith

/-- The tip block always ends with the explicit on-axis closing point. -/
theorem tipPts_eq (g : ProfileArgs) (ops : RealOps) :
    g.tipPts ops =
      (if 0 < g.meplat_radius ∧
          1/1000 < |((g.preTip ops).getLastD (0, 0)).1 - g.length_mm| then
        [(g.length_mm, g.meplat_radius)] else []) ++ [(g.length_mm, 0)] := by
  rw [ProfileArgs.tipPts]
  by_cases h1 : 0 < g.meplat_radius
  · rw [if_pos h1]
    congr 1
    by_cases h2 : 1/1000 < |((g.preTip ops).getLastD (0, 0)).1 - g.length_mm|
    · rw [if_pos h2, if_pos ⟨h1, h2⟩]
    · rw [if_neg h2, if_neg (by rintro ⟨-, hx⟩; exact h2 hx)]
  · rw [if_neg h1, if_neg (by rintro ⟨hx, -⟩; exact h1 hx), List.nil_append]

theorem num_ogive_points_pos (g : ProfileArgs) : 0 < g.num_ogive_points :=
  lt_of_lt_of_le (by norm_num) (le_max_left 20 _)

/-- **C1 counterexample.** The claim's validity conditions (positive groove
diameter and length, land < groove, meplat < body diameter, boat-tail
bounds, 0 ≤ bands ≤ 6) do not constrain the band length.  With a single
0.1 mm band the land-riding loop emits the band-start expansion at
Z = 0.2 mm and then the band end at Z = 0.1 mm, so the axial positions are
not monotone. -/
theorem profile_monotonic_counterexample :
    (0:ℚ) < 10 ∧ (0:ℚ) < 30 ∧ (9:ℚ) < 10 ∧ (0:ℚ) < 9 ∧
    ((0:ℚ) ≤ 0 ∧ (0:ℚ) ≤ 0.3 * 30) ∧ (0:ℚ) ≤ 0 ∧ (1:ℕ) ≤ 6 ∧
    ¬ List.Chain' zle (generate_bullet_profile_points ops0
        ⟨10, 9, 30, OgiveType.tangent, 2, 0, 1, 0.1, 0, BaseType.flat, 0, 0,
          true⟩) := by
  refine ⟨by norm_num, by norm_num, by norm_num, by norm_num,
    ⟨le_rfl, by norm_num⟩, le_rfl, by norm_num, ?_⟩
  intro hchain
  rw [generate_bullet_profile_points] at hchain
  have h1 := (List.chain'_append.mp hchain).1
  rw [ProfileArgs.preTip] at h1
  have h2 := (List.chain'_cons'.mp h1).2
  have h3 := (List.chain'_append.mp h2).1
  have h4 := (List.chain'_append.mp h3).2.1
  norm_num [ProfileArgs.bodyPts, ProfileArgs.z_pos, ProfileArgs.useBT,
    ProfileArgs.body_radius, ProfileArgs.radius_groove, ProfileArgs.body_length,
    ProfileArgs.body_end_z, ProfileArgs.ogive_length, ProfileArgs.spacing,
    ProfileArgs.total_band_space, bandLoopLand, List.chain'_cons, zle] at h4

/-- **C1 amended.** For design parameters satisfying the claim's validity
conditions *and additionally* a non-negative ogive caliber count, boat-tail
plus ogive shorter than the bullet, and (when bands are present) band
length ≥ 0.2 mm with non-negative band spacing, the emitted profile starts
at the on-axis point `(0, 0)`, ends at the explicit on-axis closing point
`(length, 0)` (even when the meplat is non-zero), and its axial positions
are monotonically non-decreasing. -/
theorem generate_bullet_profile_points_spec (ops : RealOps) (g : ProfileArgs)
    (hd : 0 < g.diameter_mm) (hlen : 0 < g.length_mm)
    (hland : g.land_diameter_mm < g.diameter_mm)
    (hmep : g.meplat_diameter_mm <
      (if g.land_riding then g.land_diameter_mm else g.diameter_mm))
    (hbt0 : 0 ≤ g.boat_tail_length_mm)
    (hbt3 : g.boat_tail_length_mm ≤ 0.3 * g.length_mm)
    (hang : 0 ≤ g.boat_tail_angle_deg)
    (hbands : g.num_bands ≤ 6)
    (hoc : 0 ≤ g.ogive_calibers)
    (hfit : g.boat_tail_length_mm + g.ogive_length < g.length_mm)
    (hband : 0 < g.num_bands → 0.2 ≤ g.band_length_mm ∧ 0 ≤ g.band_spacing_mm) :
    (generate_bullet_profile_points ops g).head? = some (0, 0) ∧
    (generate_bullet_profile_points ops g).getLast? = some (g.length_mm, 0) ∧
    List.Chain' zle (generate_bullet_profile_points ops g) := by
  obtain ⟨baseP, baseB⟩ := basePts_spec g ops
  obtain ⟨bodyP, bodyB⟩ := bodyPts_spec g ops hband
  have hog : 0 ≤ g.actual_ogive_length := actual_ogive_nonneg g hbt0 hoc hd hfit
  obtain ⟨ogP, ogB⟩ := ogivePts_spec g ops hog
  have hz0 : 0 ≤ g.z_pos := z_pos_nonneg g
  have hzb : g.z_pos ≤ g.body_end_z := le_of_lt (z_pos_lt_body_end g)
  have hbe : g.body_end_z ≤ g.length_mm := body_end_le_length g hbt0 hoc hd hfit
  have htip := tipPts_eq g ops
  have htipB : ∀ p ∈ (if 0 < g.meplat_radius ∧
        1/1000 < |((g.preTip ops).getLastD (0, 0)).1 - g.length_mm| then
      [(g.length_mm, g.meplat_radius)] else []), p.1 = g.length_mm := by
    intro p hp
    obtain ⟨rfl, -⟩ := mem_if_singleton hp
    rfl
  refine ⟨?_, ?_, ?_⟩
  · rw [generate_bullet_profile_points, ProfileArgs.preTip]
    rfl
  · rw [generate_bullet_profile_points, htip, ← List.append_assoc]
    exact List.getLast?_concat _
  · rw [generate_bullet_profile_points, htip, List.chain'_iff_pairwise,
      ProfileArgs.preTip]
    refine pairwise_glue (m := g.length_mm) ?_ ?_ ?_ ?_
    · -- everything before the tip is sorted
      rw [List.pairwise_cons]
      constructor
      · intro p hp
        show (0 : ℚ) ≤ p.1
        simp only [List.mem_append] at hp
        rcases hp with (hp | hp) | hp
        · exact (baseB p hp).1
        · exact le_trans hz0 (bodyB p hp).1
        · exact le_trans (le_trans hz0 hzb) (ogB p hp).1
      · refine pairwise_glue (m := g.body_end_z)
          (pairwise_glue (m := g.z_pos) baseP bodyP
            (fun p hp => (baseB p hp).2) (fun p hp => (bodyB p hp).1))
          ogP ?_ ?_
        · intro p hp
          simp only [List.mem_append] at hp
          rcases hp with hp | hp
          · exact le_trans (baseB p hp).2 hzb
          · exact (bodyB p hp).2
        · intro p hp
          exact (ogB p hp).1
    · -- the tip block is sorted (all points at Z = length)
      refine pairwise_glue (m := g.length_mm) pairwise_if_singleton
        (List.pairwise_singleton _ _) ?_ ?_
      · intro p hp
        exact le_of_eq (htipB p hp)
      · intro p hp
        rw [List.mem_singleton] at hp
        subst hp
        exact le_rfl
    · -- pre-tip points stay at or below the total length
      intro p hp
      rcases List.mem_cons.mp hp with rfl | hp
      · show (0 : ℚ) ≤ g.length_mm
        linarith
      · simp only [List.mem_append] at hp
        rcases hp with (hp | hp) | hp
        · exact le_trans (baseB p hp).2 (le_trans hzb hbe)
        · exact le_trans (bodyB p hp).2 hbe
        · exact (ogB p hp).2
    · -- tip points sit at the total length
      intro p hp
      simp only [List.mem_append] at hp
      rcases hp with hp | hp
      · exact le_of_eq (htipB p hp).symm
      · rw [List.mem_singleton] at hp
        subst hp
        exact le_rfl

/-- Witness for the amended C1: a land-riding design with one properly
sized band. -/
theorem generate_bullet_profile_points_spec_witness :
    (generate_bullet_profile_points ops0
        ⟨10, 9, 30, OgiveType.tangent, 2, 0, 1, 1, 1, BaseType.flat, 0, 0,
          true⟩).head? = some (0, 0) ∧
    (generate_bullet_profile_points ops0
        ⟨10, 9, 30, OgiveType.tangent, 2, 0, 1, 1, 1, BaseType.flat, 0, 0,
          true⟩).getLast? =
      some ((⟨10, 9, 30, OgiveType.tangent, 2, 0, 1, 1, 1, BaseType.flat, 0, 0,
          true⟩ : ProfileArgs).length_mm, 0) ∧
    List.Chain' zle (generate_bullet_profile_points ops0
        ⟨10, 9, 30, OgiveType.tangent, 2, 0, 1, 1, 1, BaseType.flat, 0, 0,
          true⟩) := by
  refine generate_bullet_profile_points_spec ops0 _ (by norm_num) (by norm_num)
    (by norm_num) (by norm_num) (by norm_num) (by norm_num) (by norm_num)
    (by norm_num) (by norm_num) (by norm_num [ProfileArgs.ogive_length])
    (fun _ => by norm_num)

/-! ## Claim: land-riding bore-fit invariant (C10) -/

/-- The tangent-ogive radius never exceeds a bound dominating both the base
and tip radii (the arc value is explicitly clamped by the source). -/
theorem tangent_radius_le (ops : RealOps) (t base tip L rg : ℚ)
    (ht0 : 0 ≤ t) (ht1 : t ≤ 1) (hb : base ≤ rg) (htp : tip ≤ rg) :
    generate_tangent_ogive_radius ops t base tip L ≤ rg := by
  rw [generate_tangent_ogive_radius]
  dsimp only
  split_ifs with h1 h2 h3 h4
  · nlinarith [mul_le_mul_of_nonneg_left hb (by linarith : (0:ℚ) ≤ 1 - t),
      mul_le_mul_of_nonneg_left htp ht0]
  · exact hb
  · exact hb
  · exact htp
  · exact max_le htp (le_trans (min_le_left _ _) hb)

/-- The secant-ogive radius never exceeds a bound dominating base and tip,
given that `t ** 1.2` lies in `[0, 1]` for `t ∈ [0, 1]`. -/
theorem secant_radius_le (ops : RealOps) (hops : OpsFacts ops)
    (t base tip L rg : ℚ) (ht0 : 0 ≤ t) (ht1 : t ≤ 1)
    (hb : base ≤ rg) (htp : tip ≤ rg) :
    generate_secant_ogive_radius ops t base tip L ≤ rg := by
  rw [generate_secant_ogive_radius]
  obtain ⟨hp0, hp1⟩ := hops.rpow_unit t ht0 ht1
  nlinarith [mul_le_mul_of_nonneg_left hb
      (by linarith : (0:ℚ) ≤ 1 - ops.rpow t (6/5)),
    mul_le_mul_of_nonneg_left htp hp0]

/-- The elliptical-ogive radius never exceeds a bound dominating base and
tip, given that the sine lies in `[0, 1]` on `[0, π/2]`. -/
theorem elliptical_radius_le (ops : RealOps) (hops : OpsFacts ops)
    (t base tip L rg : ℚ) (ht0 : 0 ≤ t) (ht1 : t ≤ 1)
    (hb : base ≤ rg) (htp : tip ≤ rg) :
    generate_elliptical_ogive_radius ops t base tip L ≤ rg := by
  rw [generate_elliptical_ogive_radius]
  have hpi := hops.pi_pos
  have hang_lo : 0 ≤ ops.pi / 2 * (1 - t) := by
    have : (0:ℚ) ≤ 1 - t := by linarith
    positivity
  have hang_hi : ops.pi / 2 * (1 - t) ≤ ops.pi / 2 := by nlinarith
  obtain ⟨hs0, hs1⟩ := hops.sin_unit _ hang_lo hang_hi
  nlinarith [mul_le_mul_of_nonneg_left htp
      (by linarith : (0:ℚ) ≤ 1 - ops.sin (ops.pi / 2 * (1 - t))),
    mul_le_mul_of_nonneg_left hb hs0]

/-- The body radius never exceeds the groove radius (the land radius is
clamped to 98% of the groove radius when it is not smaller). -/
theorem body_radius_le (g : ProfileArgs) (hd : 0 < g.diameter_mm) :
    g.body_radius ≤ g.radius_groove := by
  have hrg : 0 < g.radius_groove := by
    rw [ProfileArgs.radius_groove]
    linarith
  rw [ProfileArgs.body_radius]
  split_ifs with h1 h2
  · linarith
  · linarith [not_le.mp h2]
  · exact le_rfl

/-- The validated meplat radius never exceeds the groove radius. -/
theorem meplat_radius_le (g : ProfileArgs) (hd : 0 < g.diameter_mm) :
    g.meplat_radius ≤ g.radius_groove := by
  have hrg : 0 < g.radius_groove := by
    rw [ProfileArgs.radius_groove]
    linarith
  have hbr := body_radius_le g hd
  rw [ProfileArgs.meplat_radius]
  split_ifs with h1
  · rcases le_or_lt 0 g.body_radius with h2 | h2
    · linarith
    · linarith
  · linarith [not_le.mp h1]

/-- The per-family ogive radius never exceeds the groove radius. -/
theorem ogiveRadius_le (ops : RealOps) (hops : OpsFacts ops) (g : ProfileArgs)
    (hd : 0 < g.diameter_mm) (t : ℚ) (ht0 : 0 ≤ t) (ht1 : t ≤ 1) :
    g.ogiveRadius ops t ≤ g.radius_groove := by
  have hbr := body_radius_le g hd
  have hmr := meplat_radius_le g hd
  rw [ProfileArgs.ogiveRadius]
  cases g.ogive_type
  · exact tangent_radius_le ops t _ _ _ _ ht0 ht1 hbr hmr
  · exact secant_radius_le ops hops t _ _ _ _ ht0 ht1 hbr hmr
  · exact elliptical_radius_le ops hops t _ _ _ _ ht0 ht1 hbr hmr

/-- **C10.** For every land-riding call with positive groove diameter,
non-negative boat-tail angle below 90° and non-negative boat-tail length,
every point of the emitted profile has radius at most the groove radius
`diameter_mm / 2` — the revolved bullet fits the bore. -/
theorem profile_points_radius_le (ops : RealOps) (hops : OpsFacts ops)
    (g : ProfileArgs) (hlr : g.land_riding = true) (hd : 0 < g.diameter_mm)
    (hang0 : 0 ≤ g.boat_tail_angle_deg) (hang90 : g.boat_tail_angle_deg < 90)
    (hbt0 : 0 ≤ g.boat_tail_length_mm) :
    ∀ p ∈ generate_bullet_profile_points ops g, p.2 ≤ g.diameter_mm / 2 := by
  have hrg : 0 < g.radius_groove := by
    rw [ProfileArgs.radius_groove]
    linarith
  have hbr := body_radius_le g hd
  have hmr := meplat_radius_le g hd
  have hgoal : ∀ p ∈ generate_bullet_profile_points ops g,
      p.2 ≤ g.radius_groove := by
    intro p hp
    rw [generate_bullet_profile_points, List.mem_append] at hp
    rcases hp with hp | hp
    · rw [ProfileArgs.preTip] at hp
      rcases List.mem_cons.mp hp with rfl | hp
      · show (0:ℚ) ≤ g.radius_groove
        linarith
      · simp only [List.mem_append] at hp
        rcases hp with (hp | hp) | hp
        · -- base section
          rw [ProfileArgs.basePts] at hp
          split_ifs at hp with hBT
          · rcases List.mem_pair.mp hp with rfl | rfl
            · refine max_le ?_ (by linarith)
              have htan := hops.tan_deg_nonneg g.boat_tail_angle_deg hang0 hang90
              have : 0 ≤ g.boat_tail_length_mm *
                  ops.tan (radians ops g.boat_tail_angle_deg) :=
                mul_nonneg hbt0 htan
              linarith
            · exact le_rfl
          · rw [List.mem_singleton] at hp
            subst hp
            exact le_rfl
        · -- body section
          rw [ProfileArgs.bodyPts, if_pos hlr] at hp
          rcases List.mem_cons.mp hp with rfl | hp
          · exact hbr
          · split_ifs at hp with hb
            · rcases bandLoopLand_radii g.body_radius g.radius_groove
                g.band_length_mm g.spacing g.body_end_z g.num_bands 0 g.z_pos
                p hp with h | h
              · rw [h]; exact hbr
              · rw [h]
            · rw [List.mem_singleton] at hp
              subst hp
              exact hbr
        · -- ogive section
          rw [ProfileArgs.ogivePts, List.mem_map] at hp
          obtain ⟨t, ht, rfl⟩ := hp
          obtain ⟨ht0, ht1⟩ :=
            (tValues_spec g.num_ogive_points (num_ogive_points_pos g)).2 t ht
          exact ogiveRadius_le ops hops g hd t ht0 ht1
    · -- tip block
      rw [tipPts_eq, List.mem_append] at hp
      rcases hp with hp | hp
      · obtain ⟨rfl, -⟩ := mem_if_singleton hp
        exact hmr
      · rw [List.mem_singleton] at hp
        subst hp
        show (0:ℚ) ≤ g.radius_groove
        linarith
  intro p hp
  exact le_trans (hgoal p hp) (le_of_eq rfl)

/-- Witness for C10: the on-axis base point of a concrete land-riding
profile obeys the bore bound. -/
theorem profile_points_radius_le_witness :
    (((0:ℚ), (0:ℚ)) : ℚ × ℚ).2 ≤ (10:ℚ) / 2 := by
  have h := profile_points_radius_le ops0 ops0_facts
    ⟨10, 9, 30, OgiveType.tangent, 2, 0, 1, 1, 1, BaseType.flat, 0, 0, true⟩
    rfl (by norm_num) (by norm_num) (by norm_num) (by norm_num)
  exact h (0, 0) (by
    rw [generate_bullet_profile_points, ProfileArgs.preTip]
    exact List.mem_append_left _ (List.mem_cons_self _ _))

/-! ## Claim: trajectory sample ordering (C9) -/

/-- Appending one fresh sample at least 100 past the last output range and
below the max range preserves the sampling invariant. -/
theorem samples_inv_append (acc : List TrajSample) (s : TrajSample)
    (lor maxr : ℚ)
    (hch : List.Chain' (fun p q : TrajSample => p.range_m + 100 ≤ q.range_m) acc)
    (hle : ∀ p ∈ acc, p.range_m ≤ lor)
    (hlt : ∀ p ∈ acc, p.range_m < maxr)
    (hnew : lor + 100 ≤ s.range_m) (hsm : s.range_m < maxr) :
    List.Chain' (fun p q : TrajSample => p.range_m + 100 ≤ q.range_m)
        (acc ++ [s]) ∧
      (∀ p ∈ acc ++ [s], p.range_m ≤ s.range_m) ∧
      ∀ p ∈ acc ++ [s], p.range_m < maxr := by
  refine ⟨?_, ?_, ?_⟩
  · rw [List.chain'_append]
    refine ⟨hch, List.chain'_singleton _, ?_⟩
    intro x hx y hy
    have hx' : x ∈ acc := List.mem_of_mem_getLast? hx
    simp only [List.head?_cons, Option.mem_def, Option.some.injEq] at hy
    subst hy
    have := hle x hx'
    linarith
  · intro p hp
    rcases List.mem_append.mp hp with hp | hp
    · have := hle p hp
      linarith
    · rw [List.mem_singleton] at hp
      subst hp
      exact le_rfl
  · intro p hp
    rcases List.mem_append.mp hp with hp | hp
    · exact hlt p hp
    · rw [List.mem_singleton] at hp
      subst hp
      exact hsm


/-- Loop invariant for the output sampling: if the accumulated samples are
100-separated, bounded by the last output range, and below the max range,
then so is any returned sample list. -/
theorem rk4_loop_samples (ops : RealOps)
    (rho A m_kg i7 c maxr vmin sf lmm dmm : ℚ) :
    ∀ (fuel : ℕ) (st : RKVec) (t lor : ℚ) (acc l : List TrajSample),
      rk4_loop ops rho A m_kg i7 c maxr vmin sf lmm dmm fuel st t lor acc =
        some l →
      (List.Chain' (fun p q : TrajSample => p.range_m + 100 ≤ q.range_m) acc ∧
        (∀ p ∈ acc, p.range_m ≤ lor) ∧ ∀ p ∈ acc, p.range_m < maxr) →
      List.Chain' (fun p q : TrajSample => p.range_m + 100 ≤ q.range_m) l ∧
        ∀ p ∈ l, p.range_m < maxr := by
  intro fuel
  induction fuel with
  | zero =>
      intro st t lor acc l h hinv
      rw [rk4_loop] at h
      exact absurd h (by simp)
  | succ n ih =>
      intro st t lor acc l h hinv
      obtain ⟨hch, hle, hlt⟩ := hinv
      rw [rk4_loop] at h
      split_ifs at h with h1 h2 h3 h4 h5
      · obtain rfl := Option.some.inj h
        exact ⟨hch, hlt⟩
      · obtain rfl := Option.some.inj h
        exact ⟨hch, hlt⟩
      · obtain rfl := Option.some.inj h
        exact ⟨hch, hlt⟩
      · -- sample emitted, positive speed of sound
        refine ih _ _ _ _ _ h
          (samples_inv_append acc _ lor maxr hch hle hlt ?_ ?_)
        · show lor + 100 ≤ (rk4_step ops st rho A m_kg i7 c 0.001).x
          linarith
        · exact not_le.mp h2
      · -- sample emitted, non-positive speed of sound
        refine ih _ _ _ _ _ h
          (samples_inv_append acc _ lor maxr hch hle hlt ?_ ?_)
        · show lor + 100 ≤ (rk4_step ops st rho A m_kg i7 c 0.001).x
          linarith
        · exact not_le.mp h2
      · exact ih _ _ _ _ _ h ⟨hch, hle, hlt⟩

/-- **C9.** Any sample list returned by `integrate_trajectory_rk4` is
ordered by strictly increasing range, consecutive samples are at least 100
distance units apart, and every emitted sample has range strictly below
the requested max range. -/
theorem integrate_trajectory_samples_spec (ops : RealOps) (fuel : ℕ)
    (v0 elev rho A m_kg i7 c maxr sf lmm dmm vmin : ℚ) (l : List TrajSample)
    (h : integrate_trajectory_rk4 ops fuel v0 elev rho A m_kg i7 c maxr sf
      lmm dmm vmin = some l) :
    List.Chain' (fun p q : TrajSample => p.range_m + 100 ≤ q.range_m) l ∧
    List.Chain' (fun p q : TrajSample => p.range_m < q.range_m) l ∧
    ∀ p ∈ l, p.range_m < maxr := by
  rw [integrate_trajectory_rk4] at h
  have hmain := rk4_loop_samples ops rho A m_kg i7 c maxr vmin sf lmm dmm fuel
    _ 0 (-100) [] l h ⟨List.chain'_nil, by simp, by simp⟩
  refine ⟨hmain.1, ?_, hmain.2⟩
  refine hmain.1.imp ?_
  intro p q hpq
  linarith

/-- Witness for C9: a run that stops at the first step via the velocity
floor returns the empty, trivially well-ordered sample list. -/
theorem integrate_trajectory_samples_spec_witness :
    List.Chain' (fun p q : TrajSample => p.range_m + 100 ≤ q.range_m)
        ([] : List TrajSample) ∧
    List.Chain' (fun p q : TrajSample => p.range_m < q.range_m)
        ([] : List TrajSample) ∧
    ∀ p ∈ ([] : List TrajSample), p.range_m < (100 : ℚ) := by
  refine integrate_trajectory_samples_spec ops0 1 0 0 0 1 1 0 0 100 1 1 1 50
    [] ?_
  rw [integrate_trajectory_rk4]
  show rk4_loop ops0 0 1 1 0 0 100 50 1 1 1 (0 + 1)
    ⟨0, 0, 0 * RealOps.cos ops0 (radians ops0 0),
      0 * RealOps.sin ops0 (radians ops0 0)⟩ 0 (-100) [] = some []
  rw [rk4_loop]

  rw [if_pos]
  norm_num [rk4_step, trajectory_derivatives, rkAxpy, ops0, radians,
    interpolate_cd_g7, CD_TABLE, MACH_TABLE, bisect_left]

/-! ## Claim: loop termination (C5) -/

/-- `aY` is positive for upward speeds of at least 100. -/
theorem aY_pos (w : ℚ) (hw : 100 ≤ w) : 0 < aY w := by
  rw [aY]
  nlinarith [pow_le_pow_left₀ (by norm_num : (0:ℚ) ≤ 100) hw 3]

/-- Closed form of the derivative vector in the divergence scenario:
purely vertical motion with upward speed at least 100, unit density, area,
mass and speed of sound, and form factor `-1`. -/
theorem derivC5 (x y w : ℚ) (hw : 100 ≤ w) :
    trajectory_derivatives opsC5 ⟨x, y, 0, w⟩ 1 1 1 (-1) 1 =
      ⟨0, w, 0, aY w⟩ := by
  have hw0 : (0:ℚ) < w := by linarith
  have hww : (0:ℚ) < 0 * 0 + w * w := by nlinarith
  have hsq : (3:ℚ) ≤ 0 * 0 + w * w := by nlinarith
  rw [trajectory_derivatives]
  dsimp only
  rw [show RealOps.sqrt opsC5 (0 * 0 + w * w) = 0 * 0 + w * w from rfl]
  rw [if_neg (not_le.mpr hww)]
  rw [if_pos (by norm_num : (0:ℚ) < 1)]
  rw [show (0 * 0 + w * w) / 1 = 0 * 0 + w * w from div_one _]
  rw [interp_cd_of_ge_max hsq]
  rw [RKVec.mk.injEq]
  refine ⟨rfl, rfl, by norm_num, ?_⟩
  rw [aY]
  have hne : 0 * 0 + w * w ≠ 0 := ne_of_gt hww
  field_simp
  ring

/-- One RK4 step of the divergence scenario keeps the motion purely
vertical, keeps the height non-negative, and keeps the upward speed at
least 100. -/
theorem rk4_stepC5 (x y w : ℚ) (hy : 0 ≤ y) (hw : 100 ≤ w) :
    ∃ y' w', rk4_step opsC5 ⟨x, y, 0, w⟩ 1 1 1 (-1) 1 0.001 = ⟨x, y', 0, w'⟩ ∧
      0 ≤ y' ∧ 100 ≤ w' := by
  have hA1 := aY_pos w hw
  have hw2 : (100:ℚ) ≤ w + 0.001 / 2 * aY w := by linarith
  have hA2 := aY_pos _ hw2
  have hw3 : (100:ℚ) ≤ w + 0.001 / 2 * aY (w + 0.001 / 2 * aY w) := by
    linarith
  have hA3 := aY_pos _ hw3
  have hw4 : (100:ℚ) ≤
      w + 0.001 * aY (w + 0.001 / 2 * aY (w + 0.001 / 2 * aY w)) := by
    linarith
  have hA4 := aY_pos _ hw4
  have hax1 : rkAxpy ⟨x, y, 0, w⟩ (0.001 / 2) ⟨0, w, 0, aY w⟩
      = (⟨x, y + 0.001 / 2 * w, 0, w + 0.001 / 2 * aY w⟩ : RKVec) := by
    rw [rkAxpy]
    dsimp only
    rw [RKVec.mk.injEq]
    exact ⟨by ring, rfl, by ring, rfl⟩
  have hax2 : rkAxpy ⟨x, y, 0, w⟩ (0.001 / 2)
      ⟨0, w + 0.001 / 2 * aY w, 0, aY (w + 0.001 / 2 * aY w)⟩
      = (⟨x, y + 0.001 / 2 * (w + 0.001 / 2 * aY w), 0,
          w + 0.001 / 2 * aY (w + 0.001 / 2 * aY w)⟩ : RKVec) := by
    rw [rkAxpy]
    dsimp only
    rw [RKVec.mk.injEq]
    exact ⟨by ring, rfl, by ring, rfl⟩
  have hax3 : rkAxpy ⟨x, y, 0, w⟩ 0.001
      ⟨0, w + 0.001 / 2 * aY (w + 0.001 / 2 * aY w), 0,
        aY (w + 0.001 / 2 * aY (w + 0.001 / 2 * aY w))⟩
      = (⟨x, y + 0.001 * (w + 0.001 / 2 * aY (w + 0.001 / 2 * aY w)), 0,
          w + 0.001 * aY (w + 0.001 / 2 * aY (w + 0.001 / 2 * aY w))⟩ :
        RKVec) := by
    rw [rkAxpy]
    dsimp only
    rw [RKVec.mk.injEq]
    exact ⟨by ring, rfl, by ring, rfl⟩
  simp only [rk4_step]
  rw [derivC5 x y w hw, hax1,
    derivC5 x (y + 0.001 / 2 * w) (w + 0.001 / 2 * aY w) hw2, hax2,
    derivC5 x (y + 0.001 / 2 * (w + 0.001 / 2 * aY w))
      (w + 0.001 / 2 * aY (w + 0.001 / 2 * aY w)) hw3, hax3,
    derivC5 x (y + 0.001 * (w + 0.001 / 2 * aY (w + 0.001 / 2 * aY w)))
      (w + 0.001 * aY (w + 0.001 / 2 * aY (w + 0.001 / 2 * aY w))) hw4]
  dsimp only
  refine ⟨y + 0.001 / 6 *
      (w + 2 * (w + 0.001 / 2 * aY w) +
        2 * (w + 0.001 / 2 * aY (w + 0.001 / 2 * aY w)) +
        (w + 0.001 * aY (w + 0.001 / 2 * aY (w + 0.001 / 2 * aY w)))),
    w + 0.001 / 6 *
      (aY w + 2 * aY (w + 0.001 / 2 * aY w) +
        2 * aY (w + 0.001 / 2 * aY (w + 0.001 / 2 * aY w)) +
        aY (w + 0.001 * aY (w + 0.001 / 2 * aY (w + 0.001 / 2 * aY w)))),
    ?_, ?_, ?_⟩
  · rw [RKVec.mk.injEq]
    exact ⟨by ring, rfl, by ring, rfl⟩
  · linarith
  · linarith

/-- In the divergence scenario no guard ever fires: the loop model returns
`none` for every fuel bound. -/
theorem rk4_loopC5_none :
    ∀ (fuel : ℕ) (st : RKVec) (t lor : ℚ) (acc : List TrajSample),
      st.vx = 0 → st.x = 0 → 0 ≤ st.y → 100 ≤ st.vy →
      rk4_loop opsC5 1 1 1 (-1) 1 100 50 1 1 1 fuel st t lor acc = none := by
  intro fuel
  induction fuel with
  | zero =>
      intro st t lor acc _ _ _ _
      rw [rk4_loop]
  | succ n ih =>
      intro st t lor acc hvx hx hy hw
      obtain ⟨x, y, vx, w⟩ := st
      dsimp only at hvx hx hy hw
      subst hvx
      subst hx
      obtain ⟨y', w', hstep, hy', hw'⟩ := rk4_stepC5 0 y w hy hw
      rw [rk4_loop]
      rw [hstep]
      dsimp only
      rw [show RealOps.sqrt opsC5 (0 * 0 + w' * w') = 0 * 0 + w' * w' from
        rfl]
      rw [if_neg (not_lt.mpr (by nlinarith : (50:ℚ) ≤ 0 * 0 + w' * w'))]
      rw [if_neg (by norm_num : ¬ ((100:ℚ) ≤ 0))]
      rw [if_neg (not_lt.mpr (by linarith : (-1000:ℚ) ≤ y'))]
      split_ifs with hemit
      all_goals exact ih ⟨0, y', 0, w'⟩ _ _ _ rfl rfl hy' hw'

/-- **C5 (counterexample).** The termination claim fails as stated.  All
the claim's input conditions hold: the operations satisfy the analytic
facts, air density 1 is non-negative, area 1, mass 1 and speed of sound 1
are positive, the velocity floor 50 is positive and the max range 100 is
finite.  But the form factor (which the claim leaves unconstrained) is
`-1`, so drag acts as thrust: fired straight up at 100 m/s, the vertical
speed grows without bound, the horizontal position stays 0 and the height
stays non-negative, hence none of the three guards ever fires and the
while-loop never terminates: the fuelled loop model returns `none` for
every fuel bound. -/
theorem rk4_termination_counterexample :
    OpsFacts opsC5 ∧ (0:ℚ) ≤ 1 ∧ (0:ℚ) < 1 ∧ (0:ℚ) < 1 ∧ (0:ℚ) < 1 ∧
      (0:ℚ) < 50 ∧
      ∀ fuel : ℕ,
        integrate_trajectory_rk4 opsC5 fuel 100 90 1 1 1 (-1) 1 100 1 1 1 50
          = none := by
  refine ⟨opsC5_facts, by norm_num, by norm_num, by norm_num, by norm_num,
    by norm_num, ?_⟩
  intro fuel
  rw [integrate_trajectory_rk4]
  refine rk4_loopC5_none fuel _ 0 (-100) [] ?_ rfl ?_ ?_
  · show 100 * RealOps.cos opsC5 (radians opsC5 90) = 0
    norm_num [opsC5, ops0, radians]
  · show (0:ℚ) ≤ 0
    exact le_rfl
  · show (100:ℚ) ≤ 100 * RealOps.sin opsC5 (radians opsC5 90)
    norm_num [opsC5, ops0]

/-- With zero air density the drag force vanishes identically and the
derivative vector is `(vx, vy, 0, -g)` whenever the speed is positive. -/
theorem deriv_rho0 (ops : RealOps) (hops : OpsFacts ops)
    (x y vx vy A m_kg i7 c : ℚ) (hvx : 0 < vx) :
    trajectory_derivatives ops ⟨x, y, vx, vy⟩ 0 A m_kg i7 c =
      ⟨vx, vy, 0, -9.80665⟩ := by
  have hv : 0 < ops.sqrt (vx * vx + vy * vy) :=
    hops.sqrt_pos _ (by nlinarith)
  rw [trajectory_derivatives]
  dsimp only
  rw [if_neg (not_le.mpr hv)]
  rw [RKVec.mk.injEq]
  exact ⟨rfl, rfl, by ring, by ring⟩

/-- With zero air density one RK4 step advances the horizontal position by
exactly `dt * vx` and leaves the horizontal velocity unchanged. -/
theorem step_rho0 (ops : RealOps) (hops : OpsFacts ops)
    (x y vx vy A m_kg i7 c : ℚ) (hvx : 0 < vx) :
    (rk4_step ops ⟨x, y, vx, vy⟩ 0 A m_kg i7 c 0.001).x = x + 0.001 * vx ∧
    (rk4_step ops ⟨x, y, vx, vy⟩ 0 A m_kg i7 c 0.001).vx = vx := by
  have hax1 : rkAxpy ⟨x, y, vx, vy⟩ (0.001 / 2) ⟨vx, vy, 0, -9.80665⟩
      = (⟨x + 0.001 / 2 * vx, y + 0.001 / 2 * vy, vx,
          vy + 0.001 / 2 * (-9.80665)⟩ : RKVec) := by
    rw [rkAxpy]
    dsimp only
    rw [RKVec.mk.injEq]
    exact ⟨rfl, rfl, by ring, rfl⟩
  have hax2 : rkAxpy ⟨x, y, vx, vy⟩ (0.001 / 2)
      ⟨vx, vy + 0.001 / 2 * (-9.80665), 0, -9.80665⟩
      = (⟨x + 0.001 / 2 * vx, y + 0.001 / 2 * (vy + 0.001 / 2 * (-9.80665)),
          vx, vy + 0.001 / 2 * (-9.80665)⟩ : RKVec) := by
    rw [rkAxpy]
    dsimp only
    rw [RKVec.mk.injEq]
    exact ⟨rfl, rfl, by ring, rfl⟩
  have hax3 : rkAxpy ⟨x, y, vx, vy⟩ 0.001
      ⟨vx, vy + 0.001 / 2 * (-9.80665), 0, -9.80665⟩
      = (⟨x + 0.001 * vx, y + 0.001 * (vy + 0.001 / 2 * (-9.80665)), vx,
          vy + 0.001 * (-9.80665)⟩ : RKVec) := by
    rw [rkAxpy]
    dsimp only
    rw [RKVec.mk.injEq]
    exact ⟨rfl, rfl, by ring, rfl⟩
  simp only [rk4_step]
  rw [deriv_rho0 ops hops x y vx vy A m_kg i7 c hvx, hax1,
    deriv_rho0 ops hops (x + 0.001 / 2 * vx) (y + 0.001 / 2 * vy) vx
      (vy + 0.001 / 2 * (-9.80665)) A m_kg i7 c hvx, hax2,
    deriv_rho0 ops hops (x + 0.001 / 2 * vx)
      (y + 0.001 / 2 * (vy + 0.001 / 2 * (-9.80665))) vx
      (vy + 0.001 / 2 * (-9.80665)) A m_kg i7 c hvx, hax3,
    deriv_rho0 ops hops (x + 0.001 * vx)
      (y + 0.001 * (vy + 0.001 / 2 * (-9.80665))) vx
      (vy + 0.001 * (-9.80665)) A m_kg i7 c hvx]
  dsimp only
  constructor
  · ring
  · ring

/-- With zero air density and horizontal velocity `vx0 > 0` throughout,
the loop returns within any fuel bound `k ≥ 1` large enough that
`k` steps of horizontal travel `0.001 * vx0` reach the max range. -/
theorem rk4_loop_rho0_terminates (ops : RealOps) (hops : OpsFacts ops)
    (A m_kg i7 c maxr vmin sf lmm dmm vx0 : ℚ) (hvx0 : 0 < vx0) :
    ∀ (fuel : ℕ) (st : RKVec) (t lor : ℚ) (acc : List TrajSample),
      st.vx = vx0 → 1 ≤ fuel → maxr ≤ st.x + fuel * (0.001 * vx0) →
      (rk4_loop ops 0 A m_kg i7 c maxr vmin sf lmm dmm fuel st t lor
        acc).isSome = true := by
  intro fuel
  induction fuel with
  | zero =>
      intro st t lor acc _ h1 _
      exact absurd h1 (by norm_num)
  | succ n ih =>
      intro st t lor acc hvx hk hbound
      obtain ⟨x, y, vx, vy⟩ := st
      dsimp only at hvx hbound
      subst hvx
      obtain ⟨hx', hvx'⟩ := step_rho0 ops hops x y vx vy A m_kg i7 c hvx0
      rw [rk4_loop]
      split_ifs with g1 g2 g3 g4 g5
      · rfl
      · rfl
      · rfl
      all_goals {
        have hn1 : 1 ≤ n := by
          rcases Nat.eq_zero_or_pos n with hn0 | hn0
          · exfalso
            apply g2
            rw [hx']
            subst hn0
            push_cast at hbound
            linarith
          · exact hn0
        have hrec : maxr ≤
            (rk4_step ops ⟨x, y, vx, vy⟩ 0 A m_kg i7 c 0.001).x +
              n * (0.001 * vx) := by
          rw [hx']
          push_cast at hbound ⊢
          linarith
        exact ih _ _ _ _ hvx' hn1 hrec }

/-- **C5 (amended).** The loop terminates within a bounded, input-computable
number of steps in the drag-free regime: with zero air density and positive
initial horizontal velocity `vx0 = v0 * cos(elevation)`, the max-range
guard (or an earlier guard) fires within `⌈max_range / (vx0 * 0.001)⌉ + 1`
iterations, so any fuel bound at least that large returns a result. -/
theorem integrate_trajectory_terminates (ops : RealOps) (hops : OpsFacts ops)
    (v0 elev A m_kg i7 c maxr sf lmm dmm vmin : ℚ)
    (hvx : 0 < v0 * ops.cos (radians ops elev)) (fuel : ℕ)
    (hfuel : ⌈maxr / (v0 * ops.cos (radians ops elev) * 0.001)⌉₊ + 1 ≤ fuel) :
    (integrate_trajectory_rk4 ops fuel v0 elev 0 A m_kg i7 c maxr sf lmm
      dmm vmin).isSome = true := by
  rw [integrate_trajectory_rk4]
  refine rk4_loop_rho0_terminates ops hops A m_kg i7 c maxr vmin sf lmm dmm
    (v0 * ops.cos (radians ops elev)) hvx fuel _ 0 (-100) [] rfl
    (by omega) ?_
  have hD : (0:ℚ) < v0 * ops.cos (radians ops elev) * 0.001 :=
    mul_pos hvx (by norm_num)
  have h1 : maxr / (v0 * ops.cos (radians ops elev) * 0.001) ≤
      (⌈maxr / (v0 * ops.cos (radians ops elev) * 0.001)⌉₊ : ℚ) :=
    Nat.le_ceil _
  have h2 : ((⌈maxr / (v0 * ops.cos (radians ops elev) * 0.001)⌉₊ : ℕ) : ℚ)
      ≤ (fuel : ℚ) := by
    exact_mod_cast le_trans (Nat.le_succ _) hfuel
  have h3 := le_trans h1 h2
  rw [div_le_iff₀ hD] at h3
  show maxr ≤ (0:ℚ) + fuel * (0.001 * (v0 * ops.cos (radians ops elev)))
  calc maxr ≤ (fuel : ℚ) * (v0 * ops.cos (radians ops elev) * 0.001) := h3
  _ = 0 + fuel * (0.001 * (v0 * ops.cos (radians ops elev))) := by ring

/-- Witness for the amended C5 theorem: a level drag-free shot at 1000 m/s
with max range 1 terminates within 2 steps. -/
theorem integrate_trajectory_terminates_witness :
    (integrate_trajectory_rk4 opsW 2 1000 0 0 1 1 0 1 1 1 1 1 50).isSome
      = true := by
  refine integrate_trajectory_terminates opsW opsW_facts 1000 0 1 1 0 1 1 1
    1 1 50 ?_ 2 ?_
  · norm_num [opsW, ops0, radians]
  · norm_num [opsW, ops0, radians]
